import Mathlib

/-!
Verification of the gwsumm core against its natural-language specification.

The definitions below are a shallow embedding of three source files:
  - gwsumm/tabs/builtin.py  (`SimpleStateTab.process_state`, plot stage)
  - gwsumm/archive.py       (`write_data_archive`, `read_data_archive`,
                             `backup_existing_archive`, `restore_backup`)
  - gwsumm/channels.py      (`get_channel`, `get_channels`)

Python machine-level details that the claims do not touch (HDF5 byte layout,
real threads, the network) are modelled by explicit data: file contents are
abstract payloads, thread scheduling is an explicit arrival order, and the
remote metadata query — unconditionally disabled in the source by the
`raise ValueError("")` line — is dead code and therefore absent.
-/

namespace Gwsumm

/-! ## Plot model (gwsumm/tabs/builtin.py)

A `Plot` carries exactly the attributes `process_state` reads in its plot
stage: the output path, the `new` flag, the owning state name (`none` means
"all states"), and the `_threadsafe` flag. -/

structure Plot where
  outputfile : String
  new : Bool
  state : Option String
  threadsafe : Bool
  deriving DecidableEq, Repr

/-- The sort key of `sorted(new_plots, key=lambda p: p._threadsafe and 1 or 2)`:
in Python, a truthy `_threadsafe` yields `1`, otherwise `2`. -/
def plotSortKey (p : Plot) : Nat :=
  if p.threadsafe then 1 else 2

/-- Insertion of `x` into a list already sorted by `plotSortKey`: `x` goes
before the first element whose key is `≥` its own.  Since the sort below
folds from the right, `x` is earlier than the sorted tail in the original
list, so placing it before equal keys is exactly the stability guarantee of
Python's `sorted`. -/
def insertByKey (x : Plot) : List Plot → List Plot
  | [] => [x]
  | y :: ys =>
      if plotSortKey x ≤ plotSortKey y then x :: y :: ys
      else y :: insertByKey x ys

/-- Stable sort by `plotSortKey`, modelling Python's stable `sorted`. -/
def sortPlots : List Plot → List Plot
  | [] => []
  | x :: xs => insertByKey x (sortPlots xs)

/-- The filter on line 295–296 of builtin.py:
`[p for p in self.plots if p.new and (p.state is None or p.state.name == state.name)]`. -/
def selectNewPlots (plots : List Plot) (state : String) : List Plot :=
  plots.filter fun p => p.new && (p.state == none || p.state == some state)

/-- Lines 223–226 of builtin.py: any plot whose output file is already in
`globalv.WRITTEN_PLOTS` has its `new` flag cleared before processing. -/
def markWritten (written : List String) (plots : List Plot) : List Plot :=
  plots.map fun p =>
    if written.contains p.outputfile then { p with new := false } else p

/-- The bookkeeping effect of the plot stage of `process_state` for one tab:
clear `new` on already-written plots, select the plots still new and
applicable to `state`, order them by the thread-safety key, and append every
dispatched plot's output file to the shared written list (line 301,
`globalv.WRITTEN_PLOTS.append(plot.outputfile)`, executed at dispatch time
for queued and inline plots alike).  Returns the new written list and the
dispatched plots in processing order. -/
def processStatePlots (written : List String) (plots : List Plot)
    (state : String) : List String × List Plot :=
  let plots' := markWritten written plots
  let todo := sortPlots (selectNewPlots plots' state)
  (written ++ todo.map (·.outputfile), todo)

/-! ## Archive store (gwsumm/archive.py)

The file system visible to `write_data_archive` is two locations: the target
archive path and the `tempfile.mktemp` backup path.  Serialization by the
external HDF5 binding is a parameter: it either produces the full payload or
fails after producing a partial payload. -/

/-- Contents at the archive target path and at the temporary backup path;
`none` means the path does not exist.  Payloads are abstract byte lists. -/
structure FS where
  target : Option (List Nat)
  tmp : Option (List Nat)
  deriving DecidableEq, Repr

/-- `backup_existing_archive`: `shutil.move(filename, backup)` succeeds iff
the source exists; a missing source raises `IOError`, which the function
catches to return `None`.  Returns the new file system and whether a backup
was created. -/
def backup_existing_archive (fs : FS) : FS × Bool :=
  match fs.target with
  | none => (fs, false)
  | some data => ({ target := none, tmp := some data }, true)

/-- `restore_backup`: `shutil.move(backup, target)`. -/
def restore_backup (fs : FS) : FS :=
  { target := fs.tmp, tmp := none }

/-- Outcome of the external HDF5 serialization into the freshly opened
target file: full contents on success, or an exception together with the
half-written contents left behind. -/
inductive SerResult (E : Type) where
  | ok (data : List Nat)
  | error (e : E) (halfWritten : List Nat)

/-- `write_data_archive`: back up the existing target (if any), run the
serialization, and on any error restore the backup (when one was made)
before re-raising.  Returns the final file system, whether a backup was
created, whether a restore was attempted, and the result. -/
def write_data_archive {E : Type} (fs : FS) (ser : SerResult E) :
    FS × Bool × Bool × Except E Unit :=
  let (fs1, backup) := backup_existing_archive fs
  match ser with
  | .ok data => ({ fs1 with target := some data }, backup, false, .ok ())
  | .error e halfWritten =>
      let fs2 : FS := { fs1 with target := some halfWritten }
      if backup then (restore_backup fs2, backup, true, .error e)
      else (fs2, backup, false, .error e)

/-! ## Channel model (gwsumm/channels.py)

Names are `String`s, but every operation on them is implemented by
structural recursion over the underlying character list so that concrete
instances reduce inside the kernel.  The `gwpy.detector.Channel` class and
its `MATCH` regular expression are external collaborators: they are
modelled here by a concrete canonical-name grammar (`IFO:BODY` with a
two-character interferometer prefix), which is all the source relies on. -/

/-- Split a character list at every occurrence of `c`, like Python's
`str.split(c)`: `"a,b".split(',') = ["a","b"]`, `"a,".split(',') = ["a",""]`. -/
def splitChar (c : Char) : List Char → List (List Char)
  | [] => [[]]
  | x :: xs =>
      let r := splitChar c xs
      if x = c then [] :: r
      else
        match r with
        | [] => [[x]]
        | y :: ys => (x :: y) :: ys

/-- Join character lists with separator `c` (inverse of `splitChar`). -/
def joinWith (c : Char) : List (List Char) → List Char
  | [] => []
  | [x] => x
  | x :: xs => x ++ c :: joinWith c xs

/-- `str.rsplit(',', 1)` as used on line 89 of channels.py: split the name
at its last comma into `(name, type)`. -/
def rsplitComma (s : String) : String × String :=
  let parts := splitChar ',' s.data
  (String.mk (joinWith ',' parts.dropLast), String.mk (parts.getLastD []))

/-- `new.name.rsplit('.')[0]` from line 127 of channels.py: the part of the
name before its first dot. -/
def headBeforeDot (s : String) : String :=
  String.mk ((splitChar '.' s.data).headD s.data)

/-- Model of `re.search('\.[a-z]+\Z', name)`: the name ends in a dot
followed by one or more lowercase letters (a trend-statistic suffix). -/
def hasTrendSuffix (s : String) : Bool :=
  let parts := splitChar '.' s.data
  decide (2 ≤ parts.length)
    && (let last := parts.getLastD []
        (!last.isEmpty) && last.all Char.isLower)

/-- Model of one match of `gwpy.detector.Channel.MATCH`: a canonical
channel-name token `IFO:BODY`, where `IFO` is an uppercase letter followed
by a digit and `BODY` is a non-empty run of word characters, hyphens and
dots. -/
def isChannelToken (s : String) : Bool :=
  match splitChar ':' s.data with
  | [ifo, body] =>
      decide (ifo.length = 2)
        && (ifo.headD ' ').isUpper
        && (ifo.getLastD ' ').isDigit
        && (!body.isEmpty)
        && body.all (fun c => c.isAlphanum || c = '_' || c = '-' || c = '.')
  | _ => false

/-- Model of `Channel.MATCH.finditer(name)`: the canonical channel-name
tokens of a (possibly space-separated composite) name. -/
def channelTokens (s : String) : List String :=
  ((splitChar ' ' s.data).map String.mk).filter isChannelToken

/-- Model of `Channel.MATCH.match(name).groupdict()['type']` on line 83 of
channels.py: the `,type` suffix of the leading token of the name, when
present. -/
def matchType (s : String) : Option String :=
  match splitChar ',' ((splitChar ' ' s.data).headD []) with
  | [_, t] => if t.isEmpty then none else some (String.mk t)
  | _ => none

/-- A resolved channel record.  The fields are exactly the attributes of
`gwpy.detector.Channel` that channels.py reads or writes: `filt` stands for
the Python `filter` attribute, and `ranges` collects the `*_range`
attributes copied from a trend's source channel. -/
inductive Channel : Type where
  | mk (name : String) (type : Option String) (sample_rate : Option ℚ)
       (url : Option String) (unit : Option String)
       (bits : Option (List String)) (filt : Option String)
       (ranges : List (String × ℚ))
       (subchannels : List Channel) (ifo : Option String) : Channel

def Channel.name : Channel → String
  | .mk n _ _ _ _ _ _ _ _ _ => n

def Channel.type : Channel → Option String
  | .mk _ t _ _ _ _ _ _ _ _ => t

def Channel.sample_rate : Channel → Option ℚ
  | .mk _ _ r _ _ _ _ _ _ _ => r

def Channel.url : Channel → Option String
  | .mk _ _ _ u _ _ _ _ _ _ => u

def Channel.unit : Channel → Option String
  | .mk _ _ _ _ u _ _ _ _ _ => u

def Channel.bits : Channel → Option (List String)
  | .mk _ _ _ _ _ b _ _ _ _ => b

def Channel.filt : Channel → Option String
  | .mk _ _ _ _ _ _ f _ _ _ => f

def Channel.ranges : Channel → List (String × ℚ)
  | .mk _ _ _ _ _ _ _ r _ _ => r

def Channel.subchannels : Channel → List Channel
  | .mk _ _ _ _ _ _ _ _ s _ => s

def Channel.ifo : Channel → Option String
  | .mk _ _ _ _ _ _ _ _ _ i => i

/-- `ndsname` of a gwpy channel: `name,type` when a type is set, else the
plain name (used as the archive key and in the ambiguity message). -/
def Channel.ndsname (c : Channel) : String :=
  match c.type with
  | some t => c.name ++ "," ++ t
  | none => c.name

/-- Whether the interferometer prefix of a name parses (`IFO:...`). -/
def parseIfo (s : String) : Option String :=
  match splitChar ':' s.data with
  | [ifo, body] =>
      if decide (ifo.length = 2) && (ifo.headD ' ').isUpper
          && (ifo.getLastD ' ').isDigit && (!body.isEmpty) then
        some (String.mk ifo)
      else none
  | _ => none

/-- The `gwpy.detector.Channel(name)` constructor: parse a trailing `,type`
out of the name and the interferometer prefix; every other attribute starts
unset. -/
def Channel.fromName (s : String) : Channel :=
  let parts := splitChar ',' s.data
  let (nm, ty) :=
    match parts with
    | [n] => (String.mk n, (none : Option String))
    | _ =>
        let t := parts.getLastD []
        (String.mk (joinWith ',' parts.dropLast),
         if t.isEmpty then none else some (String.mk t))
  .mk nm ty none none none none none [] [] (parseIfo nm)

/-- Python truthiness on an optional string attribute
(`channel.type or None`). -/
def pyTruthyStr : Option String → Option String
  | some s => if s.isEmpty then none else some s
  | none => none

/-- Python truthiness on an optional rate (`channel.sample_rate or None`). -/
def pyTruthyRat : Option ℚ → Option ℚ
  | some r => if r = 0 then none else some r
  | none => none

/-- `ChannelList.sieve(name=…, type=…, sample_rate=…, exact_match=True)`
from gwpy: keep exactly the registry entries whose name matches literally
and whose type and sample rate equal the requested ones when those are
supplied. -/
def sieve (reg : List Channel) (name : String) (type? : Option String)
    (sr? : Option ℚ) : List Channel :=
  reg.filter fun c =>
    c.name == name
      && (match type? with
          | none => true
          | some t => c.type == some t)
      && (match sr? with
          | none => true
          | some r => c.sample_rate == some r)

/-- Resolution errors of channels.py: the `ValueError` for an ambiguous
registry match (lines 102–104) and the `RuntimeError` for exceeding the
recursion limit (lines 159–164), each carrying the offending request. -/
inductive RErr : Type where
  | ambiguous (request : String)
  | recursion (request : String)
  deriving DecidableEq, Repr

/-- A resolution request: `get_channel` accepts a name string or an
existing `Channel` instance (the re-resolution on line 158 passes one). -/
inductive Request : Type where
  | str (s : String)
  | chan (c : Channel)

/-- `str(channel)`: gwpy's `Channel.__str__` returns the name. -/
def Request.text : Request → String
  | .str s => s
  | .chan c => c.name

/-- Lines 80–96 of channels.py: pick the sieve arguments from the shape of
the request (space ⇒ composite name, comma ⇒ explicit type, otherwise a
plain name with type/rate taken from a `Channel` instance under Python
truthiness) and run the sieve.  Returns the stripped name, the explicit
type, and the matches. -/
def sieveRequest (reg : List Channel) (req : Request) :
    String × Option String × List Channel :=
  let s := req.text
  if s.data.contains ' ' then
    (s, matchType s, sieve reg s none none)
  else if s.data.contains ',' then
    let (nm, ty) := rsplitComma s
    (nm, some ty, sieve reg nm (some ty) none)
  else
    let ty :=
      match req with
      | .chan c => pyTruthyStr c.type
      | .str _ => none
    let sr :=
      match req with
      | .chan c => pyTruthyRat c.sample_rate
      | .str _ => none
    (s, ty, sieve reg s ty sr)

/-- Lines 130–144 of channels.py: copy `url`, `unit`, `bits`, `filter` and
every `*_range` attribute from a trend's source channel onto the new trend
channel. -/
def copyTrendMeta : Channel → Channel → Channel
  | .mk n t r _ _ _ _ _ sub i, src =>
      .mk n t r src.url src.unit src.bits src.filt src.ranges sub i

/-- Lines 146–149 of channels.py: fix the trend sample rate from the type
(`1/60.` for a minute trend, `1` for a second trend, untouched otherwise). -/
def setTrendRate (ty : String) : Channel → Channel
  | .mk n t r u un b f rg sub i =>
      if ty = "m-trend" then .mk n t (some (mkRat 1 60)) u un b f rg sub i
      else if ty = "s-trend" then .mk n t (some (mkRat 1 1)) u un b f rg sub i
      else .mk n t r u un b f rg sub i

/-- The distinct non-empty interferometer identifiers of a composite's
parts: `set(p.ifo for p in parts if p.ifo)` on line 155 of channels.py. -/
def ifoUnion (parts : List Channel) : List String :=
  ((parts.filterMap Channel.ifo).filter (fun i => !i.isEmpty)).dedup

/-- Lines 153–155 of channels.py: build the composite channel, with the
resolved parts as `subchannels` and the joined identifier union as `ifo`. -/
def compositeChannel (name : String) (parts : List Channel) : Channel :=
  match Channel.fromName name with
  | .mk n t r u un b f rg _ _ =>
      .mk n t r u un b f rg parts (some (String.join (ifoUnion parts)))

/-- One entry of the worker result queue: a successful worker puts the pair
`(input index, channel)`, a failed worker puts the bare exception
(`ThreadChannelQuery.run`, lines 51–60 of channels.py). -/
abbrev WorkerOut := Sum (Nat × Channel) RErr

/-- The result-draining loop of `get_channels` (lines 190–196): walk the
arrival-ordered queue contents, re-raising the first exception met, or
collecting all index/channel pairs. -/
def drain : List WorkerOut → Except RErr (List (Nat × Channel))
  | [] => .ok []
  | .inr e :: _ => .error e
  | .inl p :: rest => (drain rest).map (p :: ·)

/-- Stable insertion by input index (folding from the right, a pair goes
before the first pair with an index `≥` its own), modelling Python's stable
`sorted` on line 197. -/
def insertPair (x : Nat × Channel) :
    List (Nat × Channel) → List (Nat × Channel)
  | [] => [x]
  | y :: ys => if x.1 ≤ y.1 then x :: y :: ys else y :: insertPair x ys

/-- `sorted(result, key=lambda (idx, chan): idx)` on line 197. -/
def sortPairs : List (Nat × Channel) → List (Nat × Channel)
  | [] => []
  | x :: xs => insertPair x (sortPairs xs)

/-- A resolver: the type of `getChannel fuel gps`, threading the registry
through one `get_channel` call. -/
abbrev Resolver :=
  List Channel → Request → Bool → List Channel × Except RErr Channel

/-- Lines 156–164 of channels.py: append the newly built channel to the
registry and re-resolve it, so the caller receives the stored instance; a
recursion error raised during the re-resolution is re-wrapped with a
message naming the original request. -/
def registerAndResolveWith (resolve : Resolver) (reg : List Channel)
    (orig : String) (new : Channel) : List Channel × Except RErr Channel :=
  match resolve (reg ++ [new]) (.chan new) true with
  | (reg2, .error (.recursion _)) => (reg2, .error (.recursion orig))
  | r => r

/-- The worker pool of `get_channels`: each `ThreadChannelQuery` takes one
`(index, name)` assignment and reports either `(index, channel)` or the
exception.  The assignment list is given in the interleaving chosen by the
scheduler: the order in which workers run and report (each worker's
`get_channel` call appends to the registry atomically, per the registry
discipline of §4.3, so a schedule is a permutation of the enumerated
input).  Workers use the `ThreadChannelQuery` default
`find_trend_source=False`. -/
def runWorkersWith (resolve : Resolver) (reg : List Channel) :
    List (Nat × String) → List Channel × List WorkerOut
  | [] => (reg, [])
  | (i, c) :: rest =>
    match resolve reg (.str c) false with
    | (reg2, r) =>
      match runWorkersWith resolve reg2 rest with
      | (reg3, rs) =>
        match r with
        | .ok ch => (reg3, .inl (i, ch) :: rs)
        | .error e => (reg3, .inr e :: rs)

/-- `get_channel` (channels.py lines 63–164).  The registry is passed and
returned explicitly (it is the process-wide `globalv.CHANNELS`), `gps`
states whether `globalv.MODE == SUMMARY_MODE_GPS`, and `fuel` models the
recursion budget: running out of fuel is the `maximum recursion depth`
`RuntimeError`.  The remote CIS query on line 111 is dead code (line 110
unconditionally raises first), so the raw branch always falls back to a
bare `Channel(str(channel))`. -/
def getChannel : (fuel : Nat) → (gps : Bool) → (reg : List Channel) →
    (req : Request) → (find_trend_source : Bool) →
    List Channel × Except RErr Channel
  | 0, _, reg, req, _ => (reg, .error (.recursion req.text))
  | fuel + 1, gps, reg, req, fts =>
    match sieveRequest reg req with
    | (name, type?, found) =>
      match found with
      | [c] => (reg, .ok c)
      | _ :: _ :: _ => (reg, .error (.ambiguous req.text))
      | [] =>
        let toks := channelTokens name
        if toks.length == 1 && !hasTrendSuffix name then
          -- single raw channel: query disabled, fall back to a bare record
          registerAndResolveWith (getChannel fuel gps) reg req.text
            (Channel.fromName req.text)
        else if toks.length == 1 then
          -- single trend channel
          let ty :=
            match type? with
            | some t => t
            | none => if gps then "s-trend" else "m-trend"
          let new := Channel.fromName (name ++ "," ++ ty)
          if fts then
            match getChannel fuel gps reg (.str (headBeforeDot new.name))
                true with
            | (reg2, .ok source) =>
                registerAndResolveWith (getChannel fuel gps) reg2 req.text
                  (setTrendRate ty (copyTrendMeta new source))
            | (reg2, .error (.ambiguous _)) =>
                -- `except ValueError: pass` on lines 128–129
                registerAndResolveWith (getChannel fuel gps) reg2 req.text
                  (setTrendRate ty new)
            | (reg2, .error e) =>
                -- a recursion RuntimeError from the source lookup propagates
                (reg2, .error e)
          else
            registerAndResolveWith (getChannel fuel gps) reg req.text
              (setTrendRate ty new)
        else
          -- composite channel: resolve the tokens via get_channels
          match runWorkersWith (getChannel fuel gps) reg toks.enum with
          | (reg2, results) =>
            match drain results with
            | .error e => (reg2, .error e)
            | .ok pairs =>
                registerAndResolveWith (getChannel fuel gps) reg2 req.text
                  (compositeChannel name ((sortPairs pairs).map Prod.snd))

/-- The worker pool at a given fuel and mode. -/
def runWorkers (fuel : Nat) (gps : Bool) (reg : List Channel)
    (order : List (Nat × String)) : List Channel × List WorkerOut :=
  runWorkersWith (getChannel fuel gps) reg order

/-- `get_channels` (channels.py lines 167–197): the concurrent query
dispatcher.  An empty request list returns immediately with no worker
spawned; otherwise one worker per name runs (scheduled in the arrival
order `order`, a permutation of `channels.enum`), the queue is drained
re-raising the first reported exception, and on success the results are
re-sorted by original input index.  Returns the final registry, the number
of workers spawned, and the outcome. -/
def get_channels (fuel : Nat) (gps : Bool) (reg : List Channel)
    (channels : List String) (order : List (Nat × String)) :
    List Channel × Nat × Except RErr (List Channel) :=
  if channels.length = 0 then (reg, 0, .ok [])
  else
    match runWorkers fuel gps reg order with
    | (reg2, results) =>
      match drain results with
      | .error e => (reg2, channels.length, .error e)
      | .ok pairs =>
          (reg2, channels.length, .ok ((sortPairs pairs).map Prod.snd))

/-! ## Theorems -/

/-- Keys of the plot sort are at least 1. -/
theorem one_le_plotSortKey (p : Plot) : 1 ≤ plotSortKey p := by
  unfold plotSortKey
  by_cases h : p.threadsafe <;> simp [h]

/-- A thread-safe plot is inserted at the front of a sorted list. -/
theorem insertByKey_threadsafe (x : Plot) (hx : x.threadsafe = true)
    (l : List Plot) : insertByKey x l = x :: l := by
  cases l with
  | nil => rfl
  | cons y ys =>
      unfold insertByKey
      rw [if_pos]
      show plotSortKey x ≤ plotSortKey y
      unfold plotSortKey
      rw [if_pos hx]
      exact one_le_plotSortKey y

/-- A thread-unsafe plot is inserted after the thread-safe group and before
the thread-unsafe group. -/
theorem insertByKey_notSafe (x : Plot) (hx : x.threadsafe = false)
    (A B : List Plot) (hA : ∀ a ∈ A, a.threadsafe = true)
    (hB : ∀ b ∈ B, b.threadsafe = false) :
    insertByKey x (A ++ B) = A ++ x :: B := by
  induction A with
  | nil =>
      simp only [List.nil_append]
      cases B with
      | nil => rfl
      | cons b bs =>
          unfold insertByKey
          rw [if_pos]
          unfold plotSortKey
          rw [if_neg (by simp [hx]), if_neg (by simp [hB b (by simp)])]
  | cons a as ih =>
      have ha : a.threadsafe = true := hA a (by simp)
      simp only [List.cons_append]
      unfold insertByKey
      rw [if_neg, ih (fun p hp => hA p (by simp [hp]))]
      unfold plotSortKey
      rw [if_neg (by simp [hx]), if_pos ha]
      omega

/-- Python's stable sort on the two-valued thread-safety key is exactly:
the thread-safe plots in original order, then the thread-unsafe plots in
original order. -/
theorem sortPlots_eq_filter (l : List Plot) :
    sortPlots l = l.filter (fun p => p.threadsafe)
      ++ l.filter (fun p => !p.threadsafe) := by
  induction l with
  | nil => rfl
  | cons x xs ih =>
      unfold sortPlots
      rw [ih]
      by_cases hx : x.threadsafe
      · rw [insertByKey_threadsafe x hx]
        simp [List.filter_cons, hx]
      · rw [insertByKey_notSafe x (by simp [hx])
            (xs.filter (fun p => p.threadsafe))
            (xs.filter (fun p => !p.threadsafe))
            (fun a ha => (List.mem_filter.mp ha).2)
            (fun b hb => by simpa using (List.mem_filter.mp hb).2)]
        simp [List.filter_cons, hx]

/-- Membership is preserved by the plot sort. -/
theorem mem_sortPlots {q : Plot} {l : List Plot} (h : q ∈ sortPlots l) :
    q ∈ l := by
  rw [sortPlots_eq_filter] at h
  rcases List.mem_append.mp h with h' | h' <;>
    exact (List.mem_filter.mp h').1

/-- **C1** — counterexample.  The claim states that thread-unsafe plots are
processed before thread-safe ones.  On a tab holding a thread-safe plot
followed by a thread-unsafe plot, the sort key
`p._threadsafe and 1 or 2` gives thread-safe plots the smaller key, so the
code dispatches the thread-safe plot first — the opposite order. -/
theorem plot_stage_unsafe_first_refuted :
    (processStatePlots [] [Plot.mk "a.png" true none true,
        Plot.mk "b.png" true none false] "Day").2 =
      [Plot.mk "a.png" true none true, Plot.mk "b.png" true none false] ∧
    ¬ ((processStatePlots [] [Plot.mk "a.png" true none true,
        Plot.mk "b.png" true none false] "Day").2 =
      [Plot.mk "b.png" true none false, Plot.mk "a.png" true none true]) := by
  constructor
  · rfl
  · decide

/-- **C1** — amended claim: in the plot stage, among the plots selected as
still new and applicable to the current state, every thread-safe plot is
processed before every thread-unsafe plot, and within each of the two
groups the original order of the tab's plot list is preserved (stable
tie-break). -/
theorem plot_stage_threadsafe_first (written : List String)
    (plots : List Plot) (state : String) :
    (processStatePlots written plots state).2 =
      (selectNewPlots (markWritten written plots) state).filter
          (fun p => p.threadsafe)
        ++ (selectNewPlots (markWritten written plots) state).filter
          (fun p => !p.threadsafe) := by
  unfold processStatePlots
  exact sortPlots_eq_filter _

/-- **C2**: if the target archive path does not exist, `write_data_archive`
creates no backup and attempts no restore, and succeeds whenever the
serialization does; if the target exists and the serialization raises, the
pre-existing contents are restored unchanged at the original path and the
error is re-raised. -/
theorem archive_write_backup_restore {E : Type} (fs : FS) (ser : SerResult E) :
    (fs.target = none →
      (write_data_archive fs ser).2.1 = false ∧
      (write_data_archive fs ser).2.2.1 = false ∧
      ∀ data, ser = .ok data → (write_data_archive fs ser).2.2.2 = .ok ()) ∧
    (∀ orig e half, fs.target = some orig → ser = .error e half →
      (write_data_archive fs ser).1.target = some orig ∧
      (write_data_archive fs ser).2.2.2 = .error e) := by
  obtain ⟨tgt, tmp⟩ := fs
  constructor
  · rintro rfl
    cases ser <;>
      simp [write_data_archive, backup_existing_archive]
  · rintro orig e half rfl rfl
    simp [write_data_archive, backup_existing_archive, restore_backup]

/-- **C2** — witness: a concrete failing write over an existing archive
restores the original contents, and a concrete write to a missing path
makes no backup. -/
theorem archive_write_backup_restore_witness :
    ((write_data_archive (FS.mk (some [1, 2]) none)
        (SerResult.error (7 : Nat) [9])).1.target = some [1, 2] ∧
      (write_data_archive (FS.mk (some [1, 2]) none)
        (SerResult.error (7 : Nat) [9])).2.2.2 = .error 7) ∧
    (write_data_archive (FS.mk none none)
        (SerResult.ok [3] : SerResult Nat)).2.1 = false :=
  ⟨(archive_write_backup_restore (FS.mk (some [1, 2]) none)
      (SerResult.error 7 [9])).2 [1, 2] 7 [9] rfl rfl,
   ((archive_write_backup_restore (FS.mk none none)
      (SerResult.ok [3] : SerResult Nat)).1 rfl).1⟩

/-- **C7**: within one run, every dispatched plot's output path is in the
shared written-plots set from dispatch time on, and a later tab never
dispatches a plot whose output path is already in that set (it is marked
not-new before processing), so identical output paths across tabs are
dispatched at most once. -/
theorem written_plots_dedup_across_tabs (written : List String)
    (t1 t2 : List Plot) (s1 s2 : String) :
    (∀ p ∈ (processStatePlots written t1 s1).2,
        p.outputfile ∈ (processStatePlots written t1 s1).1) ∧
    (∀ q ∈ (processStatePlots (processStatePlots written t1 s1).1 t2 s2).2,
        q.outputfile ∉ (processStatePlots written t1 s1).1) := by
  constructor
  · intro p hp
    unfold processStatePlots at hp ⊢
    exact List.mem_append.mpr (Or.inr (List.mem_map_of_mem _ hp))
  · generalize hW : (processStatePlots written t1 s1).1 = W
    intro q hq hmem
    simp only [processStatePlots] at hq
    have hq' := mem_sortPlots hq
    have hsel := List.mem_filter.mp hq'
    have hnew : q.new = true := by
      have h2 := hsel.2
      simp only [Bool.and_eq_true] at h2
      exact h2.1
    rcases List.mem_map.mp hsel.1 with ⟨p0, hp0, hq0⟩
    by_cases hc : W.contains p0.outputfile = true
    · rw [if_pos hc] at hq0
      rw [← hq0] at hnew
      simp at hnew
    · rw [if_neg hc] at hq0
      rw [← hq0] at hmem
      simp at hc
      exact hc hmem

/-- **C7** — witness: one concrete tab dispatches its plot and records the
path; a second tab's fresh path is not in the first tab's written set. -/
theorem written_plots_dedup_across_tabs_witness :
    (Plot.mk "x.png" true none false).outputfile ∈
      (processStatePlots [] [Plot.mk "x.png" true none false] "Day").1 ∧
    (Plot.mk "y.png" true none false).outputfile ∉
      (processStatePlots [] [Plot.mk "x.png" true none false] "Day").1 :=
  ⟨(written_plots_dedup_across_tabs [] [Plot.mk "x.png" true none false]
      [Plot.mk "y.png" true none false] "Day" "Day").1
      (Plot.mk "x.png" true none false) (by decide),
   (written_plots_dedup_across_tabs [] [Plot.mk "x.png" true none false]
      [Plot.mk "y.png" true none false] "Day" "Day").2
      (Plot.mk "y.png" true none false) (by decide)⟩

/-- Every sieve result is a registry entry matching the requested name and,
when supplied, the requested type and sample rate. -/
theorem sieve_mem {c : Channel} {reg : List Channel} {n : String}
    {t? : Option String} {r? : Option ℚ} (h : c ∈ sieve reg n t? r?) :
    c ∈ reg ∧ c.name = n ∧ (∀ t, t? = some t → c.type = some t) ∧
      (∀ r, r? = some r → c.sample_rate = some r) := by
  have h' := List.mem_filter.mp h
  obtain ⟨hmem, hcond⟩ := h'
  simp only [Bool.and_eq_true, beq_iff_eq] at hcond
  refine ⟨hmem, hcond.1.1, ?_, ?_⟩
  · intro t ht
    have := hcond.1.2
    rw [ht] at this
    simpa using this
  · intro r hr
    have := hcond.2
    rw [hr] at this
    simpa using this

/-- A registry entry matching the requested name, type and sample rate is
in the sieve result. -/
theorem mem_sieve {c : Channel} {reg : List Channel} {n : String}
    {t? : Option String} {r? : Option ℚ} (hmem : c ∈ reg) (hn : c.name = n)
    (ht : ∀ t, t? = some t → c.type = some t)
    (hr : ∀ r, r? = some r → c.sample_rate = some r) :
    c ∈ sieve reg n t? r? := by
  refine List.mem_filter.mpr ⟨hmem, ?_⟩
  simp only [Bool.and_eq_true, beq_iff_eq]
  refine ⟨⟨hn, ?_⟩, ?_⟩
  · cases t? with
    | none => simp
    | some t => simpa using ht t rfl
  · cases r? with
    | none => simp
    | some r => simpa using hr r rfl

/-- **C5**: whenever the exact-match sieve of the registry for a request
finds two or more entries, `get_channel` raises the ambiguous-channel
`ValueError` and never returns one of the matches (the registry is also
left unchanged). -/
theorem resolve_ambiguous_error (fuel : Nat) (gps : Bool)
    (reg : List Channel) (req : Request) (fts : Bool) (c1 c2 : Channel)
    (rest : List Channel)
    (h : (sieveRequest reg req).2.2 = c1 :: c2 :: rest) :
    getChannel (fuel + 1) gps reg req fts =
      (reg, .error (.ambiguous req.text)) := by
  rcases hsv : sieveRequest reg req with ⟨name, ty, found⟩
  rw [hsv] at h
  simp only at h
  subst h
  simp only [getChannel, hsv]

/-- **C5** — witness: a registry holding two channels named `L1:X` makes
the request `L1:X` fail as ambiguous. -/
theorem resolve_ambiguous_error_witness :
    (sieveRequest
        [Channel.mk "L1:X" none none none none none none [] [] none,
         Channel.mk "L1:X" none none none none none none [] [] none]
        (.str "L1:X")).2.2 =
      [Channel.mk "L1:X" none none none none none none [] [] none,
       Channel.mk "L1:X" none none none none none none [] [] none] ∧
    getChannel 1 false
        [Channel.mk "L1:X" none none none none none none [] [] none,
         Channel.mk "L1:X" none none none none none none [] [] none]
        (.str "L1:X") true =
      ([Channel.mk "L1:X" none none none none none none [] [] none,
        Channel.mk "L1:X" none none none none none none [] [] none],
       .error (.ambiguous "L1:X")) :=
  ⟨rfl,
   resolve_ambiguous_error 0 false _ (.str "L1:X") true
     (Channel.mk "L1:X" none none none none none none [] [] none)
     (Channel.mk "L1:X" none none none none none none [] [] none) [] rfl⟩

/-- **C9**: when the exact-match sieve finds exactly one registry entry,
`get_channel` returns that stored record immediately and leaves the
registry unchanged; in particular resolving the same name twice returns
the same record.  (The remote metadata query cannot run on this path: it
only appears — disabled — in the construction branch taken when the sieve
is empty.) -/
theorem resolve_unique_fast_path (fuel : Nat) (gps : Bool)
    (reg : List Channel) (req : Request) (fts : Bool) (c : Channel)
    (h : (sieveRequest reg req).2.2 = [c]) :
    getChannel (fuel + 1) gps reg req fts = (reg, .ok c) := by
  rcases hsv : sieveRequest reg req with ⟨name, ty, found⟩
  rw [hsv] at h
  simp only at h
  subst h
  simp only [getChannel, hsv]

/-- **C9** — witness: a registry holding one channel named `L1:X` resolves
`L1:X` to exactly that record with the registry unchanged, twice over. -/
theorem resolve_unique_fast_path_witness :
    (sieveRequest [Channel.mk "L1:X" none none none none none none [] [] none]
        (.str "L1:X")).2.2 =
      [Channel.mk "L1:X" none none none none none none [] [] none] ∧
    getChannel 4 false
        [Channel.mk "L1:X" none none none none none none [] [] none]
        (.str "L1:X") true =
      ([Channel.mk "L1:X" none none none none none none [] [] none],
       .ok (Channel.mk "L1:X" none none none none none none [] [] none)) :=
  ⟨rfl,
   resolve_unique_fast_path 3 false _ (.str "L1:X") true
     (Channel.mk "L1:X" none none none none none none [] [] none) rfl⟩

/-- A successful register-and-resolve is a successful re-resolution of the
appended channel. -/
theorem registerAndResolveWith_ok {resolve : Resolver} {reg reg' : List Channel}
    {orig : String} {new c : Channel}
    (h : registerAndResolveWith resolve reg orig new = (reg', .ok c)) :
    resolve (reg ++ [new]) (.chan new) true = (reg', .ok c) := by
  unfold registerAndResolveWith at h
  split at h
  · simp at h
  · exact h

/-- Python truthiness keeps the value it returns. -/
theorem pyTruthyStr_eq_some {o : Option String} {t : String}
    (h : pyTruthyStr o = some t) : o = some t := by
  cases o with
  | none => simp [pyTruthyStr] at h
  | some s =>
      have h' : (if s.isEmpty = true then (none : Option String)
          else some s) = some t := h
      by_cases hs : s.isEmpty = true
      · rw [if_pos hs] at h'
        exact absurd h' (by simp)
      · rw [if_neg hs] at h'
        exact h'

/-- Python truthiness keeps the value it returns. -/
theorem pyTruthyRat_eq_some {o : Option ℚ} {r : ℚ}
    (h : pyTruthyRat o = some r) : o = some r := by
  cases o with
  | none => simp [pyTruthyRat] at h
  | some s =>
      have h' : (if s = 0 then (none : Option ℚ) else some s) = some r := h
      by_cases hs : s = 0
      · rw [if_pos hs] at h'
        exact absurd h' (by simp)
      · rw [if_neg hs] at h'
        exact h'

/-- Re-resolving a freshly appended channel with a plain name, a set type
and a set sample rate returns a record carrying exactly that sample rate
and type: the appended channel itself matches the sieve, so the
construction branch is unreachable and every sieve result carries the
filtered attributes. -/
theorem resolve_chan_rate {fuel : Nat} {gps : Bool} {reg reg' : List Channel}
    {new c : Channel} {t : String} {r : ℚ}
    (hsp : new.name.data.contains ' ' = false)
    (hcm : new.name.data.contains ',' = false)
    (ht : pyTruthyStr new.type = some t)
    (hr : pyTruthyRat new.sample_rate = some r)
    (hmem : new ∈ reg)
    (h : getChannel fuel gps reg (.chan new) true = (reg', .ok c)) :
    c.sample_rate = some r ∧ c.type = some t := by
  cases fuel with
  | zero => simp [getChannel] at h
  | succ fuel =>
    have hsv : sieveRequest reg (.chan new) =
        (new.name, pyTruthyStr new.type,
          sieve reg new.name (some t) (some r)) := by
      unfold sieveRequest
      simp only [Request.text, hsp, hcm, Bool.false_eq_true, if_false, ht, hr]
    have hne : new ∈ sieve reg new.name (some t) (some r) :=
      mem_sieve hmem rfl
        (fun t' h' => by
          injection h' with h''
          rw [← h'']
          exact pyTruthyStr_eq_some ht)
        (fun r' h' => by
          injection h' with h''
          rw [← h'']
          exact pyTruthyRat_eq_some hr)
    simp only [getChannel] at h
    rw [hsv] at h
    rcases hfound : sieve reg new.name (some t) (some r)
      with _ | ⟨c0, _ | ⟨c1, rest⟩⟩
    · rw [hfound] at hne
      simp at hne
    · rw [hfound] at h
      have h' : ((reg : List Channel), Except.ok (ε := RErr) c0)
          = (reg', Except.ok c) := h
      have hc : c = c0 := by
        injection h' with h1 h2
        injection h2 with h2
        exact h2.symm
      have hcmem : c0 ∈ sieve reg new.name (some t) (some r) := by
        rw [hfound]
        exact List.mem_singleton.mpr rfl
      have hp := sieve_mem hcmem
      rw [hc]
      exact ⟨hp.2.2.2 r rfl, hp.2.2.1 t rfl⟩
    · rw [hfound] at h
      have h' : ((reg : List Channel),
          Except.error (ε := RErr) (α := Channel)
            (RErr.ambiguous (Request.chan new).text))
          = (reg', Except.ok c) := h
      simp at h'

theorem copyTrendMeta_name (a b : Channel) :
    (copyTrendMeta a b).name = a.name := by
  cases a
  rfl

theorem copyTrendMeta_type (a b : Channel) :
    (copyTrendMeta a b).type = a.type := by
  cases a
  rfl

theorem copyTrendMeta_rate (a b : Channel) :
    (copyTrendMeta a b).sample_rate = a.sample_rate := by
  cases a
  rfl

theorem setTrendRate_name (ty : String) (a : Channel) :
    (setTrendRate ty a).name = a.name := by
  cases a with
  | mk n t r u un b f rg sub i =>
      show (if ty = "m-trend"
          then Channel.mk n t (some (mkRat 1 60)) u un b f rg sub i
          else if ty = "s-trend"
          then Channel.mk n t (some (mkRat 1 1)) u un b f rg sub i
          else Channel.mk n t r u un b f rg sub i).name = n
      by_cases h1 : ty = "m-trend"
      · rw [if_pos h1]
        rfl
      · rw [if_neg h1]
        by_cases h2 : ty = "s-trend"
        · rw [if_pos h2]
          rfl
        · rw [if_neg h2]
          rfl

theorem setTrendRate_type (ty : String) (a : Channel) :
    (setTrendRate ty a).type = a.type := by
  cases a with
  | mk n t r u un b f rg sub i =>
      show (if ty = "m-trend"
          then Channel.mk n t (some (mkRat 1 60)) u un b f rg sub i
          else if ty = "s-trend"
          then Channel.mk n t (some (mkRat 1 1)) u un b f rg sub i
          else Channel.mk n t r u un b f rg sub i).type = t
      by_cases h1 : ty = "m-trend"
      · rw [if_pos h1]
        rfl
      · rw [if_neg h1]
        by_cases h2 : ty = "s-trend"
        · rw [if_pos h2]
          rfl
        · rw [if_neg h2]
          rfl

theorem setTrendRate_rate_m (a : Channel) :
    (setTrendRate "m-trend" a).sample_rate = some (mkRat 1 60) := by
  cases a with
  | mk n t r u un b f rg sub i =>
      show (if "m-trend" = "m-trend"
          then Channel.mk n t (some (mkRat 1 60)) u un b f rg sub i
          else if "m-trend" = "s-trend"
          then Channel.mk n t (some (mkRat 1 1)) u un b f rg sub i
          else Channel.mk n t r u un b f rg sub i).sample_rate
        = some (mkRat 1 60)
      rw [if_pos rfl]
      rfl

theorem setTrendRate_rate_s (a : Channel) :
    (setTrendRate "s-trend" a).sample_rate = some (mkRat 1 1) := by
  cases a with
  | mk n t r u un b f rg sub i =>
      show (if "s-trend" = "m-trend"
          then Channel.mk n t (some (mkRat 1 60)) u un b f rg sub i
          else if "s-trend" = "s-trend"
          then Channel.mk n t (some (mkRat 1 1)) u un b f rg sub i
          else Channel.mk n t r u un b f rg sub i).sample_rate
        = some (mkRat 1 1)
      rw [if_neg (by decide), if_pos rfl]
      rfl

/-- Register-and-resolve of a trend channel: the record handed back
carries the trend's sample rate. -/
theorem registerAndResolve_trend_rate {fuel : Nat} {gps : Bool}
    {reg2 reg' : List Channel} {orig : String} {X c : Channel}
    {r : ℚ} (ty : String)
    (hn : X.name.data.contains ' ' = false)
    (hn2 : X.name.data.contains ',' = false)
    (ht : X.type = some ty) (hte : ty.isEmpty = false)
    (hr : X.sample_rate = some r) (hr0 : r ≠ 0)
    (h : registerAndResolveWith (getChannel fuel gps) reg2 orig X =
      (reg', .ok c)) :
    c.sample_rate = some r := by
  have h' := registerAndResolveWith_ok h
  have ht' : pyTruthyStr X.type = some ty := by
    rw [ht]
    simp [pyTruthyStr, hte]
  have hr' : pyTruthyRat X.sample_rate = some r := by
    rw [hr]
    simp [pyTruthyRat, hr0]
  exact (resolve_chan_rate hn hn2 ht' hr' (by simp) h').1

/-- Splitting a separator-free character list is the identity. -/
theorem splitChar_of_not_mem {c : Char} {l : List Char} (h : c ∉ l) :
    splitChar c l = [l] := by
  induction l with
  | nil => rfl
  | cons x xs ih =>
      have hx : ¬ x = c := fun hx => h (by rw [hx]; exact List.mem_cons_self c xs)
      have ih' := ih (fun hm => h (List.mem_cons_of_mem x hm))
      unfold splitChar
      rw [if_neg hx, ih']

/-- Splitting around the first separator peels off the prefix. -/
theorem splitChar_append {c : Char} {l1 l2 : List Char} (h : c ∉ l1) :
    splitChar c (l1 ++ c :: l2) = l1 :: splitChar c l2 := by
  induction l1 with
  | nil =>
      show splitChar c (c :: l2) = [] :: splitChar c l2
      rw [splitChar]
      rw [if_pos rfl]
  | cons x xs ih =>
      have hx : ¬ x = c := fun hx => h (by rw [hx]; exact List.mem_cons_self c xs)
      have ih' := ih (fun hm => h (List.mem_cons_of_mem x hm))
      show splitChar c (x :: (xs ++ c :: l2)) = (x :: xs) :: splitChar c l2
      rw [splitChar]
      rw [if_neg hx, ih']

theorem contains_false_not_mem {c : Char} {l : List Char}
    (h : l.contains c = false) : c ∉ l := by
  simpa using h

/-- The gwpy constructor splits a name with an appended `,type` back into
the plain name and the type. -/
theorem fromName_append_type {s : String} (ty : String)
    (hcm : s.data.contains ',' = false)
    (hty1 : splitChar ',' ty.data = [ty.data])
    (hty2 : ty.data.isEmpty = false) :
    Channel.fromName (s ++ "," ++ ty) =
      Channel.mk s (some ty) none none none none none [] [] (parseIfo s) := by
  obtain ⟨sd⟩ := s
  obtain ⟨td⟩ := ty
  have hdata : (String.mk sd ++ "," ++ String.mk td).data = sd ++ ',' :: td := by
    show (sd ++ [',']) ++ td = sd ++ ',' :: td
    simp
  unfold Channel.fromName
  rw [hdata, splitChar_append (contains_false_not_mem hcm), hty1]
  show Channel.mk (String.mk sd)
      (if td.isEmpty = true then none else some (String.mk td))
      none none none none none [] [] (parseIfo (String.mk sd)) =
    Channel.mk (String.mk sd) (some (String.mk td)) none none none none none
      [] [] (parseIfo (String.mk sd))
  rw [show td.isEmpty = false from hty2]
  rfl

/-- Resolving an untyped trend name outside GPS mode: the constructed
minute-trend record and hence the returned record carry sample rate
`mkRat 1 60`. -/
theorem trend_rate_mtrend {fuel : Nat} {reg reg' : List Channel} {s : String}
    {fts : Bool} {c : Channel}
    (hsp : s.data.contains ' ' = false)
    (hcm : s.data.contains ',' = false)
    (hsieve : sieve reg s none none = [])
    (htoks : (channelTokens s).length = 1)
    (hsuf : hasTrendSuffix s = true)
    (h : getChannel (fuel + 1) false reg (.str s) fts = (reg', .ok c)) :
    c.sample_rate = some (mkRat 1 60) := by
  have hsv : sieveRequest reg (.str s) = (s, none, []) := by
    unfold sieveRequest
    simp only [Request.text, hsp, hcm, Bool.false_eq_true, if_false, hsieve]
  simp only [getChannel] at h
  rw [hsv] at h
  dsimp only at h
  rw [htoks] at h
  rw [hsuf] at h
  simp only [beq_self_eq_true, Bool.not_true, Bool.and_false,
    Bool.false_eq_true, if_false, if_true] at h
  rw [fromName_append_type "m-trend" hcm rfl rfl] at h
  cases fts with
  | false =>
      rw [if_neg (by simp)] at h
      exact registerAndResolve_trend_rate "m-trend"
        (by rw [setTrendRate_name]; exact hsp)
        (by rw [setTrendRate_name]; exact hcm)
        (by rw [setTrendRate_type]; rfl)
        rfl
        (setTrendRate_rate_m _)
        (by decide)
        h
  | true =>
      rw [if_pos rfl] at h
      rcases hsrc : getChannel fuel false reg
          (.str (headBeforeDot (Channel.mk s (some "m-trend") none none none
            none none [] [] (parseIfo s)).name)) true with ⟨reg2, rsrc⟩
      rw [hsrc] at h
      cases rsrc with
      | ok source =>
          have h2 : registerAndResolveWith (getChannel fuel false) reg2
              (Request.str s).text
              (setTrendRate "m-trend"
                (copyTrendMeta (Channel.mk s (some "m-trend") none none none
                  none none [] [] (parseIfo s)) source)) =
              (reg', Except.ok c) := h
          exact registerAndResolve_trend_rate "m-trend"
            (by rw [setTrendRate_name, copyTrendMeta_name]; exact hsp)
            (by rw [setTrendRate_name, copyTrendMeta_name]; exact hcm)
            (by rw [setTrendRate_type, copyTrendMeta_type]; rfl)
            rfl
            (setTrendRate_rate_m _)
            (by decide)
            h2
      | error e =>
          cases e with
          | ambiguous s2 =>
              have h2 : registerAndResolveWith (getChannel fuel false) reg2
                  (Request.str s).text
                  (setTrendRate "m-trend" (Channel.mk s (some "m-trend") none
                    none none none none [] [] (parseIfo s))) =
                  (reg', Except.ok c) := h
              exact registerAndResolve_trend_rate "m-trend"
                (by rw [setTrendRate_name]; exact hsp)
                (by rw [setTrendRate_name]; exact hcm)
                (by rw [setTrendRate_type]; rfl)
                rfl
                (setTrendRate_rate_m _)
                (by decide)
                h2
          | recursion s2 =>
              have h3 : ((reg2 : List Channel),
                  (Except.error (RErr.recursion s2) : Except RErr Channel)) =
                  (reg', Except.ok c) := h
              simp at h3

/-- Resolving a name with an explicit `,s-trend` type: the constructed
second-trend record and hence the returned record carry sample rate
`mkRat 1 1`, in any mode. -/
theorem trend_rate_strend {fuel : Nat} {gps : Bool} {reg reg' : List Channel}
    {s nm : String} {fts : Bool} {c : Channel}
    (hsp : s.data.contains ' ' = false)
    (hcomma : s.data.contains ',' = true)
    (hsplit : rsplitComma s = (nm, "s-trend"))
    (hnmsp : nm.data.contains ' ' = false)
    (hnmcm : nm.data.contains ',' = false)
    (hsieve : sieve reg nm (some "s-trend") none = [])
    (htoks : (channelTokens nm).length = 1)
    (hsuf : hasTrendSuffix nm = true)
    (h : getChannel (fuel + 1) gps reg (.str s) fts = (reg', .ok c)) :
    c.sample_rate = some (mkRat 1 1) := by
  have hsv : sieveRequest reg (.str s) = (nm, some "s-trend", []) := by
    unfold sieveRequest
    simp only [Request.text, hsp, Bool.false_eq_true, if_false, hcomma,
      if_true, hsplit, hsieve]
  simp only [getChannel] at h
  rw [hsv] at h
  dsimp only at h
  rw [htoks] at h
  rw [hsuf] at h
  simp only [beq_self_eq_true, Bool.not_true, Bool.and_false,
    Bool.false_eq_true, if_false, if_true] at h
  rw [fromName_append_type "s-trend" hnmcm rfl rfl] at h
  cases fts with
  | false =>
      rw [if_neg (by simp)] at h
      exact registerAndResolve_trend_rate "s-trend"
        (by rw [setTrendRate_name]; exact hnmsp)
        (by rw [setTrendRate_name]; exact hnmcm)
        (by rw [setTrendRate_type]; rfl)
        rfl
        (setTrendRate_rate_s _)
        (by decide)
        h
  | true =>
      rw [if_pos rfl] at h
      rcases hsrc : getChannel fuel gps reg
          (.str (headBeforeDot (Channel.mk nm (some "s-trend") none none none
            none none [] [] (parseIfo nm)).name)) true with ⟨reg2, rsrc⟩
      rw [hsrc] at h
      cases rsrc with
      | ok source =>
          have h2 : registerAndResolveWith (getChannel fuel gps) reg2
              (Request.str s).text
              (setTrendRate "s-trend"
                (copyTrendMeta (Channel.mk nm (some "s-trend") none none none
                  none none [] [] (parseIfo nm)) source)) =
              (reg', Except.ok c) := h
          exact registerAndResolve_trend_rate "s-trend"
            (by rw [setTrendRate_name, copyTrendMeta_name]; exact hnmsp)
            (by rw [setTrendRate_name, copyTrendMeta_name]; exact hnmcm)
            (by rw [setTrendRate_type, copyTrendMeta_type]; rfl)
            rfl
            (setTrendRate_rate_s _)
            (by decide)
            h2
      | error e =>
          cases e with
          | ambiguous s2 =>
              have h2 : registerAndResolveWith (getChannel fuel gps) reg2
                  (Request.str s).text
                  (setTrendRate "s-trend" (Channel.mk nm (some "s-trend") none
                    none none none none [] [] (parseIfo nm))) =
                  (reg', Except.ok c) := h
              exact registerAndResolve_trend_rate "s-trend"
                (by rw [setTrendRate_name]; exact hnmsp)
                (by rw [setTrendRate_name]; exact hnmcm)
                (by rw [setTrendRate_type]; rfl)
                rfl
                (setTrendRate_rate_s _)
                (by decide)
                h2
          | recursion s2 =>
              have h3 : ((reg2 : List Channel),
                  (Except.error (RErr.recursion s2) : Except RErr Channel)) =
                  (reg', Except.ok c) := h
              simp at h3

/-- **C4**: resolving a trend-suffixed channel name with no explicit type,
when the global mode is not GPS mode, yields a channel with
`sample_rate = 1/60` (minute trend); resolving a name carrying an explicit
second-trend type yields `sample_rate = 1`, regardless of mode. -/
theorem trend_sample_rates :
    (∀ (fuel : Nat) (reg reg' : List Channel) (s : String) (fts : Bool)
        (c : Channel),
      s.data.contains ' ' = false → s.data.contains ',' = false →
      sieve reg s none none = [] → (channelTokens s).length = 1 →
      hasTrendSuffix s = true →
      getChannel (fuel + 1) false reg (.str s) fts = (reg', .ok c) →
      c.sample_rate = some (1/60)) ∧
    (∀ (fuel : Nat) (gps : Bool) (reg reg' : List Channel) (s nm : String)
        (fts : Bool) (c : Channel),
      s.data.contains ' ' = false → s.data.contains ',' = true →
      rsplitComma s = (nm, "s-trend") →
      nm.data.contains ' ' = false → nm.data.contains ',' = false →
      sieve reg nm (some "s-trend") none = [] →
      (channelTokens nm).length = 1 → hasTrendSuffix nm = true →
      getChannel (fuel + 1) gps reg (.str s) fts = (reg', .ok c) →
      c.sample_rate = some 1) := by
  have hm : (mkRat 1 60 : ℚ) = 1/60 := by
    rw [Rat.mkRat_eq_div]
    norm_num
  have hs : (mkRat 1 1 : ℚ) = 1 := by
    rw [Rat.mkRat_eq_div]
    norm_num
  constructor
  · intro fuel reg reg' s fts c h1 h2 h3 h4 h5 h6
    rw [← hm]
    exact trend_rate_mtrend h1 h2 h3 h4 h5 h6
  · intro fuel gps reg reg' s nm fts c h1 h2 h3 h4 h5 h6 h7 h8 h9
    rw [← hs]
    exact trend_rate_strend h1 h2 h3 h4 h5 h6 h7 h8 h9

/-- **C4** — witness: `L1:TEST.mean` resolves to a 1/60 Hz minute trend
outside GPS mode, and `L1:TEST.mean,s-trend` resolves to a 1 Hz second
trend even in GPS mode. -/
theorem trend_sample_rates_witness :
    (Channel.mk "L1:TEST.mean" (some "m-trend") (some (mkRat 1 60)) none none
        none none [] [] (some "L1")).sample_rate = some (1/60) ∧
    (Channel.mk "L1:TEST.mean" (some "s-trend") (some (mkRat 1 1)) none none
        none none [] [] (some "L1")).sample_rate = some 1 :=
  ⟨trend_sample_rates.1 5 []
      [Channel.mk "L1:TEST" none none none none none none [] [] (some "L1"),
       Channel.mk "L1:TEST.mean" (some "m-trend") (some (mkRat 1 60)) none
         none none none [] [] (some "L1")]
      "L1:TEST.mean" true
      (Channel.mk "L1:TEST.mean" (some "m-trend") (some (mkRat 1 60)) none
        none none none [] [] (some "L1"))
      rfl rfl rfl rfl rfl rfl,
   trend_sample_rates.2 5 true []
      [Channel.mk "L1:TEST" none none none none none none [] [] (some "L1"),
       Channel.mk "L1:TEST.mean" (some "s-trend") (some (mkRat 1 1)) none
         none none none [] [] (some "L1")]
      "L1:TEST.mean,s-trend" "L1:TEST.mean" true
      (Channel.mk "L1:TEST.mean" (some "s-trend") (some (mkRat 1 1)) none
        none none none [] [] (some "L1"))
      rfl rfl rfl rfl rfl rfl rfl rfl rfl⟩


/-- A successful drain means every queue entry was a successful worker report. -/
theorem drain_ok : ∀ {rs : List WorkerOut} {ps : List (Nat × Channel)},
    drain rs = .ok ps → rs = ps.map Sum.inl := by
  intro rs
  induction rs with
  | nil =>
      intro ps h
      have h' : (Except.ok (ε := RErr) ([] : List (Nat × Channel))) = .ok ps := h
      injection h' with h'
      rw [← h']
      rfl
  | cons x rest ih =>
      intro ps h
      match x with
      | .inr e =>
          have h' : (Except.error (ε := RErr)
            (α := List (Nat × Channel)) e) = .ok ps := h
          simp at h'
      | .inl p =>
          have h' : (drain rest).map (p :: ·) = .ok ps := h
          rcases hdr : drain rest with e | ps'
          · rw [hdr] at h'
            simp [Except.map] at h'
          · rw [hdr] at h'
            have h'' : (Except.ok (ε := RErr) (p :: ps')) = .ok ps := h'
            injection h'' with h''
            rw [← h'']
            simp [ih hdr]

/-- Draining re-raises the first exception in arrival order. -/
theorem drain_first_error :
    ∀ (pre : List WorkerOut), (∀ x ∈ pre, ∃ p, x = Sum.inl p) →
      ∀ (e : RErr) (post : List WorkerOut),
        drain (pre ++ .inr e :: post) = .error e := by
  intro pre
  induction pre with
  | nil => intro _ e post; rfl
  | cons x rest ih =>
      intro hx e post
      rcases hx x (List.mem_cons_self x rest) with ⟨p, hp⟩
      rw [hp]
      show (drain (rest ++ .inr e :: post)).map (p :: ·) = .error e
      rw [ih (fun y hy => hx y (List.mem_cons_of_mem x hy)) e post]
      rfl

/-- Insertion produces a permutation. -/
theorem insertPair_perm (x : Nat × Channel) (l : List (Nat × Channel)) :
    (insertPair x l).Perm (x :: l) := by
  induction l with
  | nil => exact List.Perm.refl _
  | cons y ys ih =>
      unfold insertPair
      by_cases h : x.1 ≤ y.1
      · rw [if_pos h]
      · rw [if_neg h]
        exact ((ih.cons y).trans (List.Perm.swap x y ys))

/-- The index sort is a permutation. -/
theorem sortPairs_perm (l : List (Nat × Channel)) : (sortPairs l).Perm l := by
  induction l with
  | nil => exact List.Perm.refl _
  | cons x xs ih =>
      unfold sortPairs
      exact (insertPair_perm x (sortPairs xs)).trans (ih.cons x)

/-- Insertion preserves sortedness by index. -/
theorem insertPair_sorted (x : Nat × Channel) {l : List (Nat × Channel)}
    (h : l.Pairwise (fun a b => a.1 ≤ b.1)) :
    (insertPair x l).Pairwise (fun a b => a.1 ≤ b.1) := by
  induction l with
  | nil => simp [insertPair]
  | cons y ys ih =>
      unfold insertPair
      rcases List.pairwise_cons.mp h with ⟨hy, hys⟩
      by_cases hxy : x.1 ≤ y.1
      · rw [if_pos hxy]
        refine List.pairwise_cons.mpr ⟨?_, h⟩
        intro b hb
        rcases List.mem_cons.mp hb with rfl | hb
        · exact hxy
        · exact le_trans hxy (hy b hb)
      · rw [if_neg hxy]
        refine List.pairwise_cons.mpr ⟨?_, ih hys⟩
        intro b hb
        have hb' := (insertPair_perm x ys).mem_iff.mp hb
        rcases List.mem_cons.mp hb' with rfl | hb'
        · omega
        · exact hy b hb'

/-- The index sort sorts by index. -/
theorem sortPairs_sorted (l : List (Nat × Channel)) :
    (sortPairs l).Pairwise (fun a b => a.1 ≤ b.1) := by
  induction l with
  | nil => simp [sortPairs]
  | cons x xs ih => exact insertPair_sorted x ih

/-- When no worker fails, the drained pairs carry the indices in the order
the scheduler ran the workers. -/
theorem runWorkersWith_drain_ok {res : Resolver} :
    ∀ (order : List (Nat × String)) (reg : List Channel)
      (ps : List (Nat × Channel)),
      drain (runWorkersWith res reg order).2 = .ok ps →
      ps.map Prod.fst = order.map Prod.fst := by
  intro order
  induction order with
  | nil =>
      intro reg ps h
      have h' : (Except.ok (ε := RErr) ([] : List (Nat × Channel)))
          = .ok ps := h
      injection h' with h'
      rw [← h']
      rfl
  | cons ic rest ih =>
      intro reg ps h
      rcases ic with ⟨i, cname⟩
      rw [runWorkersWith] at h
      rcases hres : res reg (.str cname) false with ⟨reg2, r⟩
      rw [hres] at h
      dsimp only at h
      rcases hrun : runWorkersWith res reg2 rest with ⟨reg3, rs⟩
      rw [hrun] at h
      dsimp only at h
      match r with
      | .error e =>
          have h' : drain (Sum.inr e :: rs) = .ok ps := h
          simp [drain] at h'
      | .ok ch =>
          have h' : (drain rs).map ((i, ch) :: ·) = .ok ps := h
          rcases hdr : drain rs with e | ps'
          · rw [hdr] at h'
            simp [Except.map] at h'
          · rw [hdr] at h'
            have h'' : (Except.ok (ε := RErr) ((i, ch) :: ps')) = .ok ps := h'
            injection h'' with h''
            rw [← h'']
            have hih := ih reg2 ps' (by rw [hrun]; exact hdr)
            simp [hih]

/-- **C3**: for any worker completion order (any permutation of the
enumerated input), `get_channels` on a non-empty list that returns
successfully returns exactly one channel per input, position `k` holding
the channel that the worker assigned input index `k` reported; if any
worker reported an exception, the first one met while draining the result
queue is re-raised and no partial list is returned; the empty list returns
an empty result with no worker spawned. -/
theorem get_channels_ordering (fuel : Nat) (gps : Bool) (reg : List Channel)
    (channels : List String) (order : List (Nat × String))
    (hperm : order.Perm channels.enum) :
    (channels = [] →
      get_channels fuel gps reg channels order = (reg, 0, .ok [])) ∧
    (∀ reg' n out,
      get_channels fuel gps reg channels order = (reg', n, .ok out) →
      out.length = channels.length ∧
      ∀ k (hk : k < out.length),
        Sum.inl (k, out.get ⟨k, hk⟩) ∈ (runWorkers fuel gps reg order).2) ∧
    (∀ pre e post,
      (runWorkers fuel gps reg order).2 = pre ++ .inr e :: post →
      (∀ x ∈ pre, ∃ p, x = Sum.inl p) →
      channels ≠ [] →
      (get_channels fuel gps reg channels order).2.2 = .error e) := by
  refine ⟨?_, ?_, ?_⟩
  · rintro rfl
    rfl
  · intro reg' n out h
    by_cases hch : channels.length = 0
    · rw [get_channels, if_pos hch] at h
      have h' : ((reg : List Channel), (0 : Nat),
          Except.ok (ε := RErr) ([] : List Channel)) = (reg', n, .ok out) := h
      injection h' with h1 h2
      injection h2 with h2 h3
      injection h3 with h3
      constructor
      · rw [← h3, hch]
        rfl
      · intro k hk
        rw [← h3] at hk
        simp at hk
    · rw [get_channels, if_neg hch] at h
      rcases hrw : runWorkers fuel gps reg order with ⟨reg2, results⟩
      have hrw' : runWorkersWith (getChannel fuel gps) reg order =
          (reg2, results) := hrw
      rw [hrw] at h
      dsimp only at h
      rcases hdr : drain results with e | pairs
      · rw [hdr] at h
        exact absurd h (by simp)
      · rw [hdr] at h
        have h' : ((reg2 : List Channel), channels.length,
            Except.ok (ε := RErr) ((sortPairs pairs).map Prod.snd)) =
            (reg', n, .ok out) := h
        injection h' with h1 h2
        injection h2 with h2 h3
        injection h3 with h3
        have hkeys : pairs.map Prod.fst = order.map Prod.fst :=
          runWorkersWith_drain_ok order reg pairs
            (by rw [hrw']; exact hdr)
        have hperm2 : (pairs.map Prod.fst).Perm
            (List.range channels.length) := by
          rw [hkeys]
          have hp := hperm.map Prod.fst
          rw [List.enum_map_fst] at hp
          exact hp
        have hperm3 : ((sortPairs pairs).map Prod.fst).Perm
            (List.range channels.length) :=
          ((sortPairs_perm pairs).map Prod.fst).trans hperm2
        have hsorted1 : ((sortPairs pairs).map Prod.fst).Pairwise (· ≤ ·) :=
          List.pairwise_map.mpr (sortPairs_sorted pairs)
        have hsorted2 : (List.range channels.length).Pairwise (· ≤ ·) :=
          (List.pairwise_lt_range channels.length).imp le_of_lt
        have heq : (sortPairs pairs).map Prod.fst =
            List.range channels.length :=
          List.eq_of_perm_of_sorted hperm3 hsorted1 hsorted2
        have hlen : (sortPairs pairs).length = channels.length := by
          have hl := congrArg List.length heq
          simpa using hl
        have hout : out = (sortPairs pairs).map Prod.snd := h3.symm
        constructor
        · rw [hout]
          simpa using hlen
        · intro k hk
          have hk2 : k < (sortPairs pairs).length := by
            rw [hout] at hk
            simpa using hk
          have hkm : k < ((sortPairs pairs).map Prod.fst).length := by
            simpa using hk2
          have hfst : ((sortPairs pairs).get ⟨k, hk2⟩).1 = k := by
            have e1 : ((sortPairs pairs).map Prod.fst).get ⟨k, hkm⟩ = k := by
              rw [List.get_of_eq heq ⟨k, hkm⟩]
              simp
            rw [List.get_map] at e1
            exact e1
          have hsnd : out.get ⟨k, hk⟩ = ((sortPairs pairs).get ⟨k, hk2⟩).2 := by
            have e2 : out.get ⟨k, hk⟩ =
                ((sortPairs pairs).map Prod.snd).get
                  ⟨k, by simpa using hk2⟩ := by
              apply List.get_of_eq hout
            rw [e2, List.get_map]
          have hel : (k, out.get ⟨k, hk⟩) = (sortPairs pairs).get ⟨k, hk2⟩ := by
            rw [hsnd]
            exact Prod.ext hfst.symm rfl
          have hmem : (k, out.get ⟨k, hk⟩) ∈ pairs := by
            rw [hel]
            exact (sortPairs_perm pairs).mem_iff.mp
              (List.get_mem (sortPairs pairs) _ _)
          have hmem2 : Sum.inl (k, out.get ⟨k, hk⟩) ∈ results := by
            rw [drain_ok hdr]
            exact List.mem_map_of_mem Sum.inl hmem
          exact hmem2
  · intro pre e post hres hpre hne
    have hch : ¬ channels.length = 0 := fun h0 => hne (List.length_eq_zero.mp h0)
    rw [get_channels, if_neg hch]
    rcases hrw : runWorkers fuel gps reg order with ⟨reg2, results⟩
    rw [hrw] at hres
    dsimp only at hres
    dsimp only
    rw [show drain results = .error e from by
      rw [hres]; exact drain_first_error pre hpre e post]

/-- **C3** — witness: an empty batch returns immediately; a two-name batch
whose workers complete in reversed order still returns the channels in
input order; a batch whose only worker fails raises that worker's error. -/
theorem get_channels_ordering_witness :
    (get_channels 4 false [] ([] : List String) [] = ([], 0, .ok [])) ∧
    ([Channel.mk "L1:AAA" none none none none none none [] [] (some "L1"),
      Channel.mk "L1:BBB" none none none none none none [] [] (some "L1")].length
        = (["L1:AAA", "L1:BBB"] : List String).length) ∧
    (get_channels 0 false [] ["L1:AAA"] [(0, "L1:AAA")]).2.2 =
      .error (.recursion "L1:AAA") :=
  ⟨(get_channels_ordering 4 false [] [] [] (by decide)).1 rfl,
   ((get_channels_ordering 4 false [] ["L1:AAA", "L1:BBB"]
       [(1, "L1:BBB"), (0, "L1:AAA")] (by decide)).2.1
     [Channel.mk "L1:BBB" none none none none none none [] [] (some "L1"),
      Channel.mk "L1:AAA" none none none none none none [] [] (some "L1")] 2
     [Channel.mk "L1:AAA" none none none none none none [] [] (some "L1"),
      Channel.mk "L1:BBB" none none none none none none [] [] (some "L1")]
     rfl).1,
   (get_channels_ordering 0 false [] ["L1:AAA"] [(0, "L1:AAA")]
       (by decide)).2.2 [] (.recursion "L1:AAA") [] rfl
     (fun x hx => absurd hx (List.not_mem_nil x)) (by simp)⟩


/-- Registry extension is transitive. -/
theorem extendTrans {a b c : List Channel}
    (h1 : ∃ t, b = a ++ t) (h2 : ∃ t, c = b ++ t) : ∃ t, c = a ++ t := by
  obtain ⟨t1, ht1⟩ := h1
  obtain ⟨t2, ht2⟩ := h2
  exact ⟨t1 ++ t2, by rw [ht2, ht1, List.append_assoc]⟩

/-- Every sieve match of a request is a registry entry. -/
theorem sieveRequest_mem {reg : List Channel} {req : Request} {c : Channel}
    (h : c ∈ (sieveRequest reg req).2.2) : c ∈ reg := by
  unfold sieveRequest at h
  dsimp only at h
  by_cases h1 : (req.text).data.contains ' ' = true
  · rw [if_pos h1] at h
    have h' : c ∈ sieve reg req.text none none := h
    exact (sieve_mem h').1
  · rw [if_neg h1] at h
    by_cases h2 : (req.text).data.contains ',' = true
    · rw [if_pos h2] at h
      rcases hrs : rsplitComma req.text with ⟨nm, ty⟩
      rw [hrs] at h
      have h' : c ∈ sieve reg nm (some ty) none := h
      exact (sieve_mem h').1
    · rw [if_neg h2] at h
      have h' := show c ∈ sieve reg req.text _ _ from h
      exact (sieve_mem h').1

/-- The worker pool only appends to the registry, and every channel a
successful worker reported is in the pool's final registry. -/
theorem runWorkersWith_invariant {res : Resolver}
    (hres : ∀ reg req fts, (∃ t, (res reg req fts).1 = reg ++ t) ∧
      (∀ c, (res reg req fts).2 = .ok c → c ∈ (res reg req fts).1)) :
    ∀ (order : List (Nat × String)) (reg : List Channel),
      (∃ t, (runWorkersWith res reg order).1 = reg ++ t) ∧
      (∀ i c, Sum.inl (i, c) ∈ (runWorkersWith res reg order).2 →
        c ∈ (runWorkersWith res reg order).1) := by
  intro order
  induction order with
  | nil =>
      intro reg
      refine ⟨⟨[], by simp [runWorkersWith]⟩, ?_⟩
      intro i c hc
      simp [runWorkersWith] at hc
  | cons ic rest ih =>
      intro reg
      rcases ic with ⟨i0, cname⟩
      rcases hres0 : res reg (.str cname) false with ⟨reg2, r⟩
      rcases hrun : runWorkersWith res reg2 rest with ⟨reg3, rs⟩
      obtain ⟨t1, ht1⟩ := (hres reg (.str cname) false).1
      rw [hres0] at ht1
      have ht1' : reg2 = reg ++ t1 := ht1
      obtain ⟨⟨t2, ht2⟩, ihmem⟩ := ih reg2
      rw [hrun] at ht2
      have ht2' : reg3 = reg2 ++ t2 := ht2
      match r with
      | .ok ch =>
          have hv : runWorkersWith res reg ((i0, cname) :: rest) =
              (reg3, Sum.inl (i0, ch) :: rs) := by
            rw [runWorkersWith, hres0]
            dsimp only
            rw [hrun]
          rw [hv]
          constructor
          · exact ⟨t1 ++ t2, by rw [ht2', ht1', List.append_assoc]⟩
          · intro i c hc
            rcases List.mem_cons.mp hc with heq | hc'
            · injection heq with heq
              have hch : ch ∈ (res reg (.str cname) false).1 :=
                (hres reg (.str cname) false).2 ch (by rw [hres0])
              rw [hres0] at hch
              rw [ht2']
              have : c = ch := (Prod.mk.injEq _ _ _ _ |>.mp heq).2
              rw [this]
              exact List.mem_append_left t2 hch
            · have := ihmem i c (by rw [hrun]; exact hc')
              rw [hrun] at this
              exact this
      | .error e =>
          have hv : runWorkersWith res reg ((i0, cname) :: rest) =
              (reg3, Sum.inr e :: rs) := by
            rw [runWorkersWith, hres0]
            dsimp only
            rw [hrun]
          rw [hv]
          constructor
          · exact ⟨t1 ++ t2, by rw [ht2', ht1', List.append_assoc]⟩
          · intro i c hc
            rcases List.mem_cons.mp hc with heq | hc'
            · exact absurd heq (by simp)
            · have := ihmem i c (by rw [hrun]; exact hc')
              rw [hrun] at this
              exact this

/-- Register-and-resolve only appends to the registry (the new channel
included), and a returned record is in the final registry. -/
theorem registerAndResolveWith_invariant {res : Resolver}
    (hres : ∀ reg req fts, (∃ t, (res reg req fts).1 = reg ++ t) ∧
      (∀ c, (res reg req fts).2 = .ok c → c ∈ (res reg req fts).1)) :
    ∀ (reg : List Channel) (orig : String) (new : Channel),
      (∃ t, (registerAndResolveWith res reg orig new).1 = reg ++ t) ∧
      (∀ c, (registerAndResolveWith res reg orig new).2 = .ok c →
        c ∈ (registerAndResolveWith res reg orig new).1) := by
  intro reg orig new
  rcases hr : res (reg ++ [new]) (.chan new) true with ⟨reg2, r⟩
  obtain ⟨t1, ht1⟩ := (hres (reg ++ [new]) (.chan new) true).1
  rw [hr] at ht1
  have ht1' : reg2 = reg ++ ([new] ++ t1) := by
    rw [← List.append_assoc]
    exact ht1
  match r with
  | .error (.recursion s) =>
      have hv : registerAndResolveWith res reg orig new =
          (reg2, .error (.recursion orig)) := by
        rw [registerAndResolveWith, hr]
      rw [hv]
      exact ⟨⟨[new] ++ t1, ht1'⟩, fun c hc => by simp at hc⟩
  | .error (.ambiguous s) =>
      have hv : registerAndResolveWith res reg orig new =
          (reg2, .error (.ambiguous s)) := by
        rw [registerAndResolveWith, hr]
      rw [hv]
      exact ⟨⟨[new] ++ t1, ht1'⟩, fun c hc => by simp at hc⟩
  | .ok c0 =>
      have hv : registerAndResolveWith res reg orig new = (reg2, .ok c0) := by
        rw [registerAndResolveWith, hr]
      rw [hv]
      refine ⟨⟨[new] ++ t1, ht1'⟩, ?_⟩
      intro c hc
      have hc0 : c0 ∈ (res (reg ++ [new]) (.chan new) true).1 :=
        (hres (reg ++ [new]) (.chan new) true).2 c0 (by rw [hr])
      rw [hr] at hc0
      have hcc : c0 = c := by injection hc
      rw [← hcc]
      exact hc0

/-- `get_channel` never removes registry entries (append-only), and any
record it returns is in the registry it leaves behind. -/
theorem getChannel_invariant :
    ∀ (fuel : Nat) (gps : Bool) (reg : List Channel) (req : Request)
      (fts : Bool),
      (∃ t, (getChannel fuel gps reg req fts).1 = reg ++ t) ∧
      (∀ c, (getChannel fuel gps reg req fts).2 = .ok c →
        c ∈ (getChannel fuel gps reg req fts).1) := by
  intro fuel
  induction fuel with
  | zero =>
      intro gps reg req fts
      refine ⟨⟨[], by simp [getChannel]⟩, ?_⟩
      intro c hc
      simp [getChannel] at hc
  | succ fuel ih =>
      intro gps reg req fts
      have hres : ∀ (reg : List Channel) (req : Request) (fts : Bool),
          (∃ t, (getChannel fuel gps reg req fts).1 = reg ++ t) ∧
          (∀ c, (getChannel fuel gps reg req fts).2 = .ok c →
            c ∈ (getChannel fuel gps reg req fts).1) :=
        fun a b c => ih gps a b c
      rcases hsv : sieveRequest reg req with ⟨name, ty?, found⟩
      cases found with
      | cons c0 tl =>
          cases tl with
          | nil =>
              have hv : getChannel (fuel + 1) gps reg req fts =
                  (reg, .ok c0) := by
                simp only [getChannel]
                rw [hsv]
              rw [hv]
              refine ⟨⟨[], by simp⟩, ?_⟩
              intro c hc
              have hc' : Except.ok (ε := RErr) c0 = Except.ok c := hc
              injection hc' with hcc
              rw [← hcc]
              exact sieveRequest_mem
                (show c0 ∈ (sieveRequest reg req).2.2 by
                  rw [hsv]
                  exact List.mem_singleton.mpr rfl)
          | cons c1 tl2 =>
              have hv : getChannel (fuel + 1) gps reg req fts =
                  (reg, .error (.ambiguous req.text)) := by
                simp only [getChannel]
                rw [hsv]
              rw [hv]
              exact ⟨⟨[], by simp⟩, fun c hc => by simp at hc⟩
      | nil =>
          simp only [getChannel]
          rw [hsv]
          dsimp only
          by_cases h1 :
              ((channelTokens name).length == 1 && !hasTrendSuffix name) = true
          · rw [if_pos h1]
            exact registerAndResolveWith_invariant hres reg req.text
              (Channel.fromName req.text)
          · rw [if_neg h1]
            by_cases h2 : ((channelTokens name).length == 1) = true
            · rw [if_pos h2]
              cases ty? with
              | some t =>
                  cases fts with
                  | false =>
                      rw [if_neg (by simp)]
                      exact registerAndResolveWith_invariant hres reg req.text _
                  | true =>
                      rw [if_pos rfl]
                      rcases hsrc : getChannel fuel gps reg
                          (.str (headBeforeDot (Channel.fromName
                            (name ++ "," ++ t)).name)) true with ⟨reg2, rsrc⟩
                      obtain ⟨t0, ht0⟩ := (hres reg
                        (.str (headBeforeDot (Channel.fromName
                          (name ++ "," ++ t)).name)) true).1
                      rw [hsrc] at ht0
                      have ht0' : reg2 = reg ++ t0 := ht0
                      cases rsrc with
                      | ok source =>
                          dsimp only
                          have hrar := registerAndResolveWith_invariant hres
                            reg2 req.text (setTrendRate t
                              (copyTrendMeta (Channel.fromName
                                (name ++ "," ++ t)) source))
                          exact ⟨extendTrans ⟨t0, ht0'⟩ hrar.1, hrar.2⟩
                      | error e =>
                          cases e with
                          | ambiguous s2 =>
                              dsimp only
                              have hrar := registerAndResolveWith_invariant
                                hres reg2 req.text (setTrendRate t
                                  (Channel.fromName (name ++ "," ++ t)))
                              exact ⟨extendTrans ⟨t0, ht0'⟩ hrar.1, hrar.2⟩
                          | recursion s2 =>
                              dsimp only
                              exact ⟨⟨t0, ht0'⟩, fun c hc => by simp at hc⟩
              | none =>
                  cases fts with
                  | false =>
                      rw [if_neg (by simp)]
                      exact registerAndResolveWith_invariant hres reg req.text _
                  | true =>
                      rw [if_pos rfl]
                      cases gps with
                      | false =>
                          rw [show (if false = true then "s-trend"
                            else "m-trend") = "m-trend" from rfl]
                          rcases hsrc : getChannel fuel false reg
                              (.str (headBeforeDot (Channel.fromName
                                (name ++ "," ++ "m-trend")).name)) true
                            with ⟨reg2, rsrc⟩
                          obtain ⟨t0, ht0⟩ := (hres reg
                            (.str (headBeforeDot (Channel.fromName
                              (name ++ "," ++ "m-trend")).name)) true).1
                          rw [hsrc] at ht0
                          have ht0' : reg2 = reg ++ t0 := ht0
                          cases rsrc with
                          | ok source =>
                              dsimp only
                              have hrar := registerAndResolveWith_invariant
                                hres reg2 req.text (setTrendRate "m-trend"
                                  (copyTrendMeta (Channel.fromName
                                    (name ++ "," ++ "m-trend")) source))
                              exact ⟨extendTrans ⟨t0, ht0'⟩ hrar.1, hrar.2⟩
                          | error e =>
                              cases e with
                              | ambiguous s2 =>
                                  dsimp only
                                  have hrar := registerAndResolveWith_invariant
                                    hres reg2 req.text (setTrendRate "m-trend"
                                      (Channel.fromName
                                        (name ++ "," ++ "m-trend")))
                                  exact ⟨extendTrans ⟨t0, ht0'⟩ hrar.1, hrar.2⟩
                              | recursion s2 =>
                                  dsimp only
                                  exact ⟨⟨t0, ht0'⟩, fun c hc => by simp at hc⟩
                      | true =>
                          rw [show (if true = true then "s-trend"
                            else "m-trend") = "s-trend" from rfl]
                          rcases hsrc : getChannel fuel true reg
                              (.str (headBeforeDot (Channel.fromName
                                (name ++ "," ++ "s-trend")).name)) true
                            with ⟨reg2, rsrc⟩
                          obtain ⟨t0, ht0⟩ := (hres reg
                            (.str (headBeforeDot (Channel.fromName
                              (name ++ "," ++ "s-trend")).name)) true).1
                          rw [hsrc] at ht0
                          have ht0' : reg2 = reg ++ t0 := ht0
                          cases rsrc with
                          | ok source =>
                              dsimp only
                              have hrar := registerAndResolveWith_invariant
                                hres reg2 req.text (setTrendRate "s-trend"
                                  (copyTrendMeta (Channel.fromName
                                    (name ++ "," ++ "s-trend")) source))
                              exact ⟨extendTrans ⟨t0, ht0'⟩ hrar.1, hrar.2⟩
                          | error e =>
                              cases e with
                              | ambiguous s2 =>
                                  dsimp only
                                  have hrar := registerAndResolveWith_invariant
                                    hres reg2 req.text (setTrendRate "s-trend"
                                      (Channel.fromName
                                        (name ++ "," ++ "s-trend")))
                                  exact ⟨extendTrans ⟨t0, ht0'⟩ hrar.1, hrar.2⟩
                              | recursion s2 =>
                                  dsimp only
                                  exact ⟨⟨t0, ht0'⟩, fun c hc => by simp at hc⟩
            · rw [if_neg h2]
              rcases hrun : runWorkersWith (getChannel fuel gps) reg
                  (channelTokens name).enum with ⟨reg2, results⟩
              obtain ⟨⟨t0, ht0⟩, _⟩ := runWorkersWith_invariant hres
                (channelTokens name).enum reg
              rw [hrun] at ht0
              have ht0' : reg2 = reg ++ t0 := ht0
              rcases hdr : drain results with e | pairs
              · dsimp only
                exact ⟨⟨t0, ht0'⟩, fun c hc => by simp at hc⟩
              · dsimp only
                have hrar := registerAndResolveWith_invariant hres reg2
                  req.text (compositeChannel name
                    ((sortPairs pairs).map Prod.snd))
                exact ⟨extendTrans ⟨t0, ht0'⟩ hrar.1, hrar.2⟩


/-- **C10**: the registry only grows across a `get_channels` batch, every
channel a successful worker resolved is in the batch's final registry, and
`get_channels` hands back exactly that registry whether or not the batch
fails — a failing batch discards only the result list, with no rollback of
registry appends. -/
theorem batch_failure_keeps_registry (fuel : Nat) (gps : Bool)
    (reg : List Channel) (channels : List String)
    (order : List (Nat × String)) :
    (∃ t, (runWorkers fuel gps reg order).1 = reg ++ t) ∧
    (∀ i c, Sum.inl (i, c) ∈ (runWorkers fuel gps reg order).2 →
      c ∈ (runWorkers fuel gps reg order).1) ∧
    (channels ≠ [] →
      (get_channels fuel gps reg channels order).1 =
        (runWorkers fuel gps reg order).1) := by
  have hinv := runWorkersWith_invariant
    (fun a b c => getChannel_invariant fuel gps a b c) order reg
  refine ⟨hinv.1, hinv.2, ?_⟩
  intro hne
  rw [get_channels, if_neg (fun h0 => hne (List.length_eq_zero.mp h0))]
  rcases hrw : runWorkers fuel gps reg order with ⟨reg2, results⟩
  dsimp only
  rcases hdr : drain results with e | pairs
  · rfl
  · rfl

/-- **C10** — witness: in a batch where worker 0 resolves `L1:AAA` and
worker 1 fails on the ambiguous `L1:X`, the batch raises yet the resolved
`L1:AAA` record is in the registry `get_channels` leaves behind. -/
theorem batch_failure_keeps_registry_witness :
    Sum.inl (0, Channel.mk "L1:AAA" none none none none none none [] []
        (some "L1")) ∈
      (runWorkers 3 false
        [Channel.mk "L1:X" none none none none none none [] [] none,
         Channel.mk "L1:X" none none none none none none [] [] none]
        [(0, "L1:AAA"), (1, "L1:X")]).2 ∧
    Channel.mk "L1:AAA" none none none none none none [] [] (some "L1") ∈
      (runWorkers 3 false
        [Channel.mk "L1:X" none none none none none none [] [] none,
         Channel.mk "L1:X" none none none none none none [] [] none]
        [(0, "L1:AAA"), (1, "L1:X")]).1 ∧
    (get_channels 3 false
        [Channel.mk "L1:X" none none none none none none [] [] none,
         Channel.mk "L1:X" none none none none none none [] [] none]
        ["L1:AAA", "L1:X"] [(0, "L1:AAA"), (1, "L1:X")]).2.2 =
      .error (.ambiguous "L1:X") ∧
    (get_channels 3 false
        [Channel.mk "L1:X" none none none none none none [] [] none,
         Channel.mk "L1:X" none none none none none none [] [] none]
        ["L1:AAA", "L1:X"] [(0, "L1:AAA"), (1, "L1:X")]).1 =
      (runWorkers 3 false
        [Channel.mk "L1:X" none none none none none none [] [] none,
         Channel.mk "L1:X" none none none none none none [] [] none]
        [(0, "L1:AAA"), (1, "L1:X")]).1 := by
  have hmem : Sum.inl (0, Channel.mk "L1:AAA" none none none none none none
      [] [] (some "L1")) ∈
      (runWorkers 3 false
        [Channel.mk "L1:X" none none none none none none [] [] none,
         Channel.mk "L1:X" none none none none none none [] [] none]
        [(0, "L1:AAA"), (1, "L1:X")]).2 := List.Mem.head _
  refine ⟨hmem, ?_, rfl, ?_⟩
  · exact (batch_failure_keeps_registry 3 false
      [Channel.mk "L1:X" none none none none none none [] [] none,
       Channel.mk "L1:X" none none none none none none [] [] none]
      ["L1:AAA", "L1:X"] [(0, "L1:AAA"), (1, "L1:X")]).2.1 0
      (Channel.mk "L1:AAA" none none none none none none [] [] (some "L1"))
      hmem
  · exact (batch_failure_keeps_registry 3 false
      [Channel.mk "L1:X" none none none none none none [] [] none,
       Channel.mk "L1:X" none none none none none none [] [] none]
      ["L1:AAA", "L1:X"] [(0, "L1:AAA"), (1, "L1:X")]).2.2 (by simp)



/-- The gwpy constructor on a comma-free name keeps the name whole. -/
theorem fromName_no_comma {s : String} (hcm : s.data.contains ',' = false) :
    Channel.fromName s =
      Channel.mk s none none none none none none [] [] (parseIfo s) := by
  obtain ⟨sd⟩ := s
  unfold Channel.fromName
  rw [splitChar_of_not_mem (contains_false_not_mem hcm)]

/-- The composite constructor, written out for a comma-free name. -/
theorem compositeChannel_eq {s : String} (hcm : s.data.contains ',' = false)
    (parts : List Channel) :
    compositeChannel s parts =
      Channel.mk s none none none none none none [] parts
        (some (String.join (ifoUnion parts))) := by
  unfold compositeChannel
  rw [fromName_no_comma hcm]

/-- The sieve distributes over registry concatenation. -/
theorem sieve_append (l1 l2 : List Channel) (n : String) (t? : Option String)
    (r? : Option ℚ) :
    sieve (l1 ++ l2) n t? r? = sieve l1 n t? r? ++ sieve l2 n t? r? :=
  List.filter_append _ _

/-- Membership in the identifier union: exactly the non-empty identifiers
of the parts. -/
theorem mem_ifoUnion {parts : List Channel} {x : String} :
    x ∈ ifoUnion parts ↔
      x.isEmpty = false ∧ ∃ p ∈ parts, p.ifo = some x := by
  unfold ifoUnion
  rw [List.mem_dedup, List.mem_filter, List.mem_filterMap]
  constructor
  · rintro ⟨⟨p, hp, hpi⟩, hx⟩
    refine ⟨by simpa using hx, p, hp, hpi⟩
  · rintro ⟨hx, p, hp, hpi⟩
    exact ⟨⟨p, hp, hpi⟩, by simpa using hx⟩

/-- **C8**: resolving a composite name with two valid sub-tokens `A B`
yields the registered composite channel whose `subchannels` is
`[resolve(A), resolve(B)]` in that order — `a` and `b` being the channels
the two (sequentially scheduled) sub-resolutions return — and whose
derived interferometer identifier joins `ifoUnion [a, b]`, the set of
distinct non-empty identifiers of the two sub-channels. -/
theorem composite_resolution {fuel : Nat} {gps : Bool}
    {reg reg1 reg2 : List Channel} {s A B : String} {fts : Bool}
    {a b : Channel}
    (hsp : s.data.contains ' ' = true)
    (hscm : s.data.contains ',' = false)
    (htoks : channelTokens s = [A, B])
    (hA : getChannel fuel gps reg (.str A) false = (reg1, .ok a))
    (hB : getChannel fuel gps reg1 (.str B) false = (reg2, .ok b))
    (hsieve0 : sieve reg s none none = [])
    (hsieve2 : sieve reg2 s none none = []) :
    getChannel (fuel + 1) gps reg (.str s) fts =
      (reg2 ++ [compositeChannel s [a, b]],
       .ok (compositeChannel s [a, b])) ∧
    (compositeChannel s [a, b]).subchannels = [a, b] ∧
    (compositeChannel s [a, b]).ifo =
      some (String.join (ifoUnion [a, b])) ∧
    (∀ x, x ∈ ifoUnion [a, b] ↔
      x.isEmpty = false ∧ (a.ifo = some x ∨ b.ifo = some x)) := by
  cases fuel with
  | zero => simp [getChannel] at hA
  | succ f =>
  have hcc := compositeChannel_eq hscm [a, b]
  refine ⟨?_, ?_, ?_, ?_⟩
  · -- main resolution equation
    have hsv : sieveRequest reg (.str s) = (s, matchType s, []) := by
      unfold sieveRequest
      simp only [Request.text, hsp, if_true, hsieve0]
    have h2 : runWorkersWith (getChannel (f + 1) gps) reg1 [(1, B)] =
        (reg2, [Sum.inl (1, b)]) := by
      rw [runWorkersWith, hB]
      dsimp only
      rfl
    have h3 : runWorkersWith (getChannel (f + 1) gps) reg [(0, A), (1, B)] =
        (reg2, [Sum.inl (0, a), Sum.inl (1, b)]) := by
      rw [runWorkersWith, hA]
      dsimp only
      rw [h2]
    -- the re-resolution of the appended composite
    have hname : (compositeChannel s [a, b]).name = s := by
      rw [hcc]
      rfl
    have hsv2 : sieveRequest (reg2 ++ [compositeChannel s [a, b]])
        (.chan (compositeChannel s [a, b])) =
        (s, matchType s, [compositeChannel s [a, b]]) := by
      unfold sieveRequest
      dsimp only [Request.text]
      rw [hname]
      rw [if_pos hsp]
      rw [sieve_append, hsieve2]
      simp [sieve, hname]
    have hre : getChannel (f + 1) gps (reg2 ++ [compositeChannel s [a, b]])
        (.chan (compositeChannel s [a, b])) true =
        (reg2 ++ [compositeChannel s [a, b]],
         .ok (compositeChannel s [a, b])) := by
      rw [getChannel]
      rw [hsv2]
    have hrar : registerAndResolveWith (getChannel (f + 1) gps) reg2 s
        (compositeChannel s [a, b]) =
        (reg2 ++ [compositeChannel s [a, b]],
         .ok (compositeChannel s [a, b])) := by
      rw [registerAndResolveWith, hre]
    rw [getChannel]
    rw [hsv]
    dsimp only
    rw [htoks]
    simp only [List.length_cons, List.length_nil]
    rw [show ((List.enum [A, B] : List (Nat × String))) = [(0, A), (1, B)]
      from rfl]
    rw [h3]
    dsimp only
    rw [show drain [Sum.inl (0, a), Sum.inl (1, b)] =
      Except.ok (ε := RErr) [(0, a), (1, b)] from rfl]
    dsimp only
    rw [show (sortPairs [(0, a), (1, b)]).map Prod.snd = [a, b] from rfl]
    exact hrar
  · rw [hcc]
    rfl
  · rw [hcc]
    rfl
  · intro x
    rw [mem_ifoUnion]
    constructor
    · rintro ⟨hx, p, hp, hpi⟩
      rcases List.mem_cons.mp hp with rfl | hp'
      · exact ⟨hx, Or.inl hpi⟩
      · rcases List.mem_cons.mp hp' with rfl | hp''
        · exact ⟨hx, Or.inr hpi⟩
        · exact absurd hp'' (List.not_mem_nil p)
    · rintro ⟨hx, hab⟩
      rcases hab with hpa | hpb
      · exact ⟨hx, a, by simp, hpa⟩
      · exact ⟨hx, b, by simp, hpb⟩


/-- **C8** — witness: `"L1:AAA H1:BBB"` resolves to a composite whose
subchannels are the resolutions of `L1:AAA` and `H1:BBB` in order. -/
theorem composite_resolution_witness :
    getChannel (5 + 1) false [] (.str "L1:AAA H1:BBB") true =
      ([Channel.mk "L1:AAA" none none none none none none [] [] (some "L1"),
        Channel.mk "H1:BBB" none none none none none none [] [] (some "H1")]
        ++ [compositeChannel "L1:AAA H1:BBB"
            [Channel.mk "L1:AAA" none none none none none none [] []
              (some "L1"),
             Channel.mk "H1:BBB" none none none none none none [] []
              (some "H1")]],
       .ok (compositeChannel "L1:AAA H1:BBB"
            [Channel.mk "L1:AAA" none none none none none none [] []
              (some "L1"),
             Channel.mk "H1:BBB" none none none none none none [] []
              (some "H1")])) ∧
    (compositeChannel "L1:AAA H1:BBB"
        [Channel.mk "L1:AAA" none none none none none none [] [] (some "L1"),
         Channel.mk "H1:BBB" none none none none none none [] []
          (some "H1")]).subchannels =
      [Channel.mk "L1:AAA" none none none none none none [] [] (some "L1"),
       Channel.mk "H1:BBB" none none none none none none [] [] (some "H1")] :=
  ⟨(@composite_resolution 5 false [] _ _ "L1:AAA H1:BBB" "L1:AAA" "H1:BBB"
      true _ _ rfl rfl rfl rfl rfl rfl rfl).1,
   (@composite_resolution 5 false [] _ _ "L1:AAA H1:BBB" "L1:AAA" "H1:BBB"
      true _ _ rfl rfl rfl rfl rfl rfl rfl).2.1⟩




/-- A time-series record as archived: `ts.name`, `ts.channel.ndsname` and
`ts.epoch.gps` make up the dataset key on line 62 of archive.py. -/
structure TSRec where
  name : String
  channelNds : String
  epochGps : Int
  deriving DecidableEq, Repr

/-- A spectrogram record: `spec.name` and `spec.epoch.gps` make up the
dataset key on line 73 of archive.py. -/
structure SpecRec where
  name : String
  channelNds : String
  epochGps : Int
  deriving DecidableEq, Repr

/-- A data-quality flag record, stored under its flag name. -/
structure FlagRec where
  name : String
  active : List (Int × Int)
  deriving DecidableEq, Repr

/-- The process-wide collections of gwsumm.globalv that the archive store
serializes: `DATA`, `SPECTROGRAMS` and `SEGMENTS`, each a mapping from
channel (or flag) name to its data (§3 of the spec). -/
structure Globals where
  DATA : List (String × List TSRec)
  SPECTROGRAMS : List (String × List SpecRec)
  SEGMENTS : List (String × FlagRec)
  deriving DecidableEq, Repr

/-- The archive file: three optional top-level groups; `none` means the
group is absent from the file. -/
structure ArchiveFile where
  timeseries : Option (List TSRec)
  spectrogram : Option (List SpecRec)
  segments : Option (List FlagRec)
  deriving DecidableEq, Repr

/-- The serialization content of `write_data_archive` (lines 54–82 of
archive.py): each requested group is created (even when empty) and filled
with every record of the corresponding collection, iterating the mapping's
entries and each entry's series in order; an unrequested group is absent.
(The backup/restore behaviour of the same function is modelled separately
by `write_data_archive` above.) -/
def write_archive_groups (g : Globals)
    (timeseries spectrogram segments : Bool) : ArchiveFile :=
  { timeseries :=
      if timeseries then some (g.DATA.map Prod.snd).join else none,
    spectrogram :=
      if spectrogram then some (g.SPECTROGRAMS.map Prod.snd).join else none,
    segments := if segments then some (g.SEGMENTS.map Prod.snd) else none }

/-- Append a series at a key of the `DATA` mapping, creating the entry when
absent. -/
def insertAppendTS :
    List (String × List TSRec) → String → TSRec →
      List (String × List TSRec)
  | [], k, ts => [(k, [ts])]
  | (k0, l) :: rest, k, ts =>
      if k0 = k then (k0, l ++ [ts]) :: rest
      else (k0, l) :: insertAppendTS rest k ts

/-- Append a spectrogram at a key of the `SPECTROGRAMS` mapping. -/
def insertAppendSpec :
    List (String × List SpecRec) → String → SpecRec →
      List (String × List SpecRec)
  | [], k, sp => [(k, [sp])]
  | (k0, l) :: rest, k, sp =>
      if k0 = k then (k0, l ++ [sp]) :: rest
      else (k0, l) :: insertAppendSpec rest k sp

/-- `globalv.SEGMENTS += {name: flag}` on line 126 of archive.py: a
dict-style update that overwrites the entry with the same flag name or adds
a new one. -/
def updateSegments :
    List (String × FlagRec) → String → FlagRec → List (String × FlagRec)
  | [], k, f => [(k, f)]
  | (k0, f0) :: rest, k, f =>
      if k0 = k then (k0, f) :: rest
      else (k0, f0) :: updateSegments rest k f

/-- Modelled from the spec: `add_timeseries(ts, key=ts.channel.ndsname)`
from gwsumm.data (whose source is not available here) appends the series to
the `DATA` mapping under its channel's nds name — §3 describes the
collections as mappings from channel name to an ordered sequence of data
objects, and §4.4 says read re-resolves each stored channel's identity
before inserting its data. -/
def add_timeseries (g : Globals) (ts : TSRec) : Globals :=
  { g with DATA := insertAppendTS g.DATA ts.channelNds ts }

/-- Modelled from the spec: `add_spectrogram(spec)` from gwsumm.data
appends the spectrogram to the `SPECTROGRAMS` mapping under its channel's
name. -/
def add_spectrogram (g : Globals) (sp : SpecRec) : Globals :=
  { g with SPECTROGRAMS := insertAppendSpec g.SPECTROGRAMS sp.channelNds sp }

/-- `read_data_archive` (lines 89–126 of archive.py): each of the three
groups is looked up, a missing group (`KeyError`) is replaced by an empty
dict and skipped; time series and spectrograms are re-inserted via the
data-access helpers, segment flags are merged into `SEGMENTS` by name. -/
def read_data_archive (g : Globals) (f : ArchiveFile) : Globals :=
  let tss := match f.timeseries with | none => [] | some l => l
  let g1 := tss.foldl add_timeseries g
  let specs := match f.spectrogram with | none => [] | some l => l
  let g2 := specs.foldl add_spectrogram g1
  let flags := match f.segments with | none => [] | some l => l
  flags.foldl
    (fun g0 fl => { g0 with SEGMENTS := updateSegments g0.SEGMENTS fl.name fl })
    g2

/-- The empty collections at process start. -/
def emptyGlobals : Globals := ⟨[], [], []⟩


/-- Keys after appending a series at a key. -/
theorem insertAppendTS_keys (m : List (String × List TSRec)) (key : String)
    (ts : TSRec) (k : String) :
    k ∈ (insertAppendTS m key ts).map Prod.fst ↔
      k ∈ m.map Prod.fst ∨ k = key := by
  induction m with
  | nil => simp [insertAppendTS, eq_comm]
  | cons e rest ih =>
      rcases e with ⟨k0, l⟩
      unfold insertAppendTS
      by_cases h : k0 = key
      · rw [if_pos h]
        subst h
        simp
        tauto
      · rw [if_neg h]
        simp [ih]
        tauto

/-- Keys after appending a spectrogram at a key. -/
theorem insertAppendSpec_keys (m : List (String × List SpecRec))
    (key : String) (sp : SpecRec) (k : String) :
    k ∈ (insertAppendSpec m key sp).map Prod.fst ↔
      k ∈ m.map Prod.fst ∨ k = key := by
  induction m with
  | nil => simp [insertAppendSpec, eq_comm]
  | cons e rest ih =>
      rcases e with ⟨k0, l⟩
      unfold insertAppendSpec
      by_cases h : k0 = key
      · rw [if_pos h]
        subst h
        simp
        tauto
      · rw [if_neg h]
        simp [ih]
        tauto

/-- Keys after a dict-style segment update. -/
theorem updateSegments_keys (m : List (String × FlagRec)) (key : String)
    (f : FlagRec) (k : String) :
    k ∈ (updateSegments m key f).map Prod.fst ↔
      k ∈ m.map Prod.fst ∨ k = key := by
  induction m with
  | nil => simp [updateSegments, eq_comm]
  | cons e rest ih =>
      rcases e with ⟨k0, f0⟩
      unfold updateSegments
      by_cases h : k0 = key
      · rw [if_pos h]
        subst h
        simp
        tauto
      · rw [if_neg h]
        simp [ih]
        tauto

/-- Re-inserting time series touches only `DATA`. -/
theorem foldl_add_timeseries_other :
    ∀ (l : List TSRec) (g : Globals),
      (l.foldl add_timeseries g).SPECTROGRAMS = g.SPECTROGRAMS ∧
      (l.foldl add_timeseries g).SEGMENTS = g.SEGMENTS := by
  intro l
  induction l with
  | nil => intro g; exact ⟨rfl, rfl⟩
  | cons ts rest ih => intro g; exact ih (add_timeseries g ts)

/-- Re-inserting spectrograms touches only `SPECTROGRAMS`. -/
theorem foldl_add_spectrogram_other :
    ∀ (l : List SpecRec) (g : Globals),
      (l.foldl add_spectrogram g).DATA = g.DATA ∧
      (l.foldl add_spectrogram g).SEGMENTS = g.SEGMENTS := by
  intro l
  induction l with
  | nil => intro g; exact ⟨rfl, rfl⟩
  | cons sp rest ih => intro g; exact ih (add_spectrogram g sp)

/-- Merging segment flags touches only `SEGMENTS`. -/
theorem foldl_segments_other :
    ∀ (l : List FlagRec) (g : Globals),
      (l.foldl (fun g0 fl =>
        { g0 with SEGMENTS := updateSegments g0.SEGMENTS fl.name fl })
        g).DATA = g.DATA ∧
      (l.foldl (fun g0 fl =>
        { g0 with SEGMENTS := updateSegments g0.SEGMENTS fl.name fl })
        g).SPECTROGRAMS = g.SPECTROGRAMS := by
  intro l
  induction l with
  | nil => intro g; exact ⟨rfl, rfl⟩
  | cons fl rest ih => intro g; exact ih _

/-- The keys present after re-inserting a list of series: the old keys and
the series' channel names. -/
theorem foldl_add_timeseries_keys :
    ∀ (l : List TSRec) (g : Globals) (k : String),
      k ∈ (l.foldl add_timeseries g).DATA.map Prod.fst ↔
        k ∈ g.DATA.map Prod.fst ∨ ∃ ts ∈ l, ts.channelNds = k := by
  intro l
  induction l with
  | nil => intro g k; simp
  | cons ts rest ih =>
      intro g k
      rw [List.foldl_cons, ih]
      rw [show (add_timeseries g ts).DATA =
        insertAppendTS g.DATA ts.channelNds ts from rfl]
      rw [insertAppendTS_keys]
      constructor
      · rintro (⟨hk | hk⟩ | ⟨t, ht, htk⟩)
        · exact Or.inl hk
        · exact Or.inr ⟨ts, by simp, hk.symm⟩
        · exact Or.inr ⟨t, by simp [ht], htk⟩
      · rintro (hk | ⟨t, ht, htk⟩)
        · exact Or.inl (Or.inl hk)
        · rcases List.mem_cons.mp ht with rfl | ht2
          · exact Or.inl (Or.inr htk.symm)
          · exact Or.inr ⟨t, ht2, htk⟩

/-- The keys present after re-inserting a list of spectrograms. -/
theorem foldl_add_spectrogram_keys :
    ∀ (l : List SpecRec) (g : Globals) (k : String),
      k ∈ (l.foldl add_spectrogram g).SPECTROGRAMS.map Prod.fst ↔
        k ∈ g.SPECTROGRAMS.map Prod.fst ∨ ∃ sp ∈ l, sp.channelNds = k := by
  intro l
  induction l with
  | nil => intro g k; simp
  | cons sp rest ih =>
      intro g k
      rw [List.foldl_cons, ih]
      rw [show (add_spectrogram g sp).SPECTROGRAMS =
        insertAppendSpec g.SPECTROGRAMS sp.channelNds sp from rfl]
      rw [insertAppendSpec_keys]
      constructor
      · rintro (⟨hk | hk⟩ | ⟨t, ht, htk⟩)
        · exact Or.inl hk
        · exact Or.inr ⟨sp, by simp, hk.symm⟩
        · exact Or.inr ⟨t, by simp [ht], htk⟩
      · rintro (hk | ⟨t, ht, htk⟩)
        · exact Or.inl (Or.inl hk)
        · rcases List.mem_cons.mp ht with rfl | ht2
          · exact Or.inl (Or.inr htk.symm)
          · exact Or.inr ⟨t, ht2, htk⟩

/-- One step of the segment merge, projected. -/
theorem segStep_SEGMENTS (g : Globals) (fl : FlagRec) :
    ((fun (g0 : Globals) (fl0 : FlagRec) => { g0 with
        SEGMENTS := updateSegments g0.SEGMENTS fl0.name fl0 }) g fl).SEGMENTS
      = updateSegments g.SEGMENTS fl.name fl := rfl

/-- The keys present after merging a list of flags: the old keys and the
flags' names. -/
theorem foldl_segments_keys :
    ∀ (l : List FlagRec) (g : Globals) (k : String),
      k ∈ (l.foldl (fun g0 fl =>
          { g0 with SEGMENTS := updateSegments g0.SEGMENTS fl.name fl })
          g).SEGMENTS.map Prod.fst ↔
        k ∈ g.SEGMENTS.map Prod.fst ∨ ∃ fl ∈ l, fl.name = k := by
  intro l
  induction l with
  | nil => intro g k; simp
  | cons fl rest ih =>
      intro g k
      rw [List.foldl_cons, ih]
      rw [segStep_SEGMENTS]
      rw [updateSegments_keys]
      constructor
      · rintro (⟨hk | hk⟩ | ⟨t, ht, htk⟩)
        · exact Or.inl hk
        · exact Or.inr ⟨fl, by simp, hk.symm⟩
        · exact Or.inr ⟨t, by simp [ht], htk⟩
      · rintro (hk | ⟨t, ht, htk⟩)
        · exact Or.inl (Or.inl hk)
        · rcases List.mem_cons.mp ht with rfl | ht2
          · exact Or.inl (Or.inr htk.symm)
          · exact Or.inr ⟨t, ht2, htk⟩


/-- **C6**: writing an archive and reading it back into empty collections
reproduces the same set of channel names, spectrogram keys and
segment-flag names, provided each collection keys its records by the
stored channel/flag name (the invariant the data-access layer maintains)
with no empty entry; and reading a file that lacks the `timeseries`,
`spectrogram` or `segments` group leaves the corresponding collection
untouched rather than raising. -/
theorem archive_round_trip (g : Globals) :
    ((∀ k l, (k, l) ∈ g.DATA → l ≠ [] ∧ ∀ ts ∈ l, ts.channelNds = k) →
     (∀ k l, (k, l) ∈ g.SPECTROGRAMS →
        l ≠ [] ∧ ∀ sp ∈ l, sp.channelNds = k) →
     (∀ k fl, (k, fl) ∈ g.SEGMENTS → fl.name = k) →
     ∀ k,
      (k ∈ (read_data_archive emptyGlobals
          (write_archive_groups g true true true)).DATA.map Prod.fst ↔
        k ∈ g.DATA.map Prod.fst) ∧
      (k ∈ (read_data_archive emptyGlobals
          (write_archive_groups g true true true)).SPECTROGRAMS.map
            Prod.fst ↔
        k ∈ g.SPECTROGRAMS.map Prod.fst) ∧
      (k ∈ (read_data_archive emptyGlobals
          (write_archive_groups g true true true)).SEGMENTS.map Prod.fst ↔
        k ∈ g.SEGMENTS.map Prod.fst)) ∧
    (∀ (g0 : Globals) (f : ArchiveFile), f.timeseries = none →
      (read_data_archive g0 f).DATA = g0.DATA) ∧
    (∀ (g0 : Globals) (f : ArchiveFile), f.spectrogram = none →
      (read_data_archive g0 f).SPECTROGRAMS = g0.SPECTROGRAMS) ∧
    (∀ (g0 : Globals) (f : ArchiveFile), f.segments = none →
      (read_data_archive g0 f).SEGMENTS = g0.SEGMENTS) := by
  refine ⟨?_, ?_, ?_, ?_⟩
  · intro hD hS hF k
    have e1 : read_data_archive emptyGlobals
        (write_archive_groups g true true true) =
        (g.SEGMENTS.map Prod.snd).foldl
          (fun g0 fl =>
            { g0 with SEGMENTS := updateSegments g0.SEGMENTS fl.name fl })
          ((g.SPECTROGRAMS.map Prod.snd).join.foldl add_spectrogram
            ((g.DATA.map Prod.snd).join.foldl add_timeseries
              emptyGlobals)) := rfl
    refine ⟨?_, ?_, ?_⟩
    · rw [e1]
      rw [(foldl_segments_other _ _).1]
      rw [(foldl_add_spectrogram_other _ _).1]
      rw [foldl_add_timeseries_keys]
      constructor
      · rintro (h0 | ⟨ts, hts, rfl⟩)
        · simp [emptyGlobals] at h0
        · rcases List.mem_join.mp hts with ⟨l, hl, htl⟩
          rcases List.mem_map.mp hl with ⟨⟨k0, l0⟩, hkl, hsnd⟩
          have htl0 : ts ∈ l0 := by
            rw [show l0 = l from hsnd]
            exact htl
          have hinv := (hD k0 l0 hkl).2 ts htl0
          rw [hinv]
          exact List.mem_map_of_mem Prod.fst hkl
      · intro hk
        rcases List.mem_map.mp hk with ⟨⟨k0, l0⟩, hkl, hfst⟩
        obtain ⟨hne, hinv⟩ := hD k0 l0 hkl
        cases l0 with
        | nil => exact absurd rfl hne
        | cons ts0 rest =>
            refine Or.inr ⟨ts0, ?_, ?_⟩
            · exact List.mem_join.mpr
                ⟨ts0 :: rest, List.mem_map_of_mem Prod.snd hkl, by simp⟩
            · rw [hinv ts0 (by simp)]
              exact hfst
    · rw [e1]
      rw [(foldl_segments_other _ _).2]
      rw [foldl_add_spectrogram_keys]
      rw [(foldl_add_timeseries_other _ _).1]
      constructor
      · rintro (h0 | ⟨sp, hsp, rfl⟩)
        · simp [emptyGlobals] at h0
        · rcases List.mem_join.mp hsp with ⟨l, hl, htl⟩
          rcases List.mem_map.mp hl with ⟨⟨k0, l0⟩, hkl, hsnd⟩
          have htl0 : sp ∈ l0 := by
            rw [show l0 = l from hsnd]
            exact htl
          have hinv := (hS k0 l0 hkl).2 sp htl0
          rw [hinv]
          exact List.mem_map_of_mem Prod.fst hkl
      · intro hk
        rcases List.mem_map.mp hk with ⟨⟨k0, l0⟩, hkl, hfst⟩
        obtain ⟨hne, hinv⟩ := hS k0 l0 hkl
        cases l0 with
        | nil => exact absurd rfl hne
        | cons sp0 rest =>
            refine Or.inr ⟨sp0, ?_, ?_⟩
            · exact List.mem_join.mpr
                ⟨sp0 :: rest, List.mem_map_of_mem Prod.snd hkl, by simp⟩
            · rw [hinv sp0 (by simp)]
              exact hfst
    · rw [e1]
      rw [foldl_segments_keys]
      rw [(foldl_add_spectrogram_other _ _).2]
      rw [(foldl_add_timeseries_other _ _).2]
      constructor
      · rintro (h0 | ⟨fl, hfl, rfl⟩)
        · simp [emptyGlobals] at h0
        · rcases List.mem_map.mp hfl with ⟨⟨k0, f0⟩, hkf, hsnd⟩
          have hf0 : f0 = fl := hsnd
          rw [← hf0, hF k0 f0 hkf]
          exact List.mem_map_of_mem Prod.fst hkf
      · intro hk
        rcases List.mem_map.mp hk with ⟨⟨k0, f0⟩, hkf, hfst⟩
        refine Or.inr ⟨f0, List.mem_map_of_mem Prod.snd hkf, ?_⟩
        rw [hF k0 f0 hkf]
        exact hfst
  · intro g0 f hf
    unfold read_data_archive
    rw [hf]
    dsimp only
    rw [(foldl_segments_other _ _).1]
    rw [(foldl_add_spectrogram_other _ _).1]
    rfl
  · intro g0 f hf
    unfold read_data_archive
    rw [hf]
    dsimp only
    rw [(foldl_segments_other _ _).2]
    rw [List.foldl_nil]
    rw [(foldl_add_timeseries_other _ _).1]
  · intro g0 f hf
    unfold read_data_archive
    rw [hf]
    dsimp only
    rw [List.foldl_nil]
    rw [(foldl_add_spectrogram_other _ _).2]
    rw [(foldl_add_timeseries_other _ _).2]


/-- A one-channel, one-spectrogram, one-flag collection state. -/
def gW : Globals :=
  ⟨[("X2:A,raw", [⟨"X2:A", "X2:A,raw", 100⟩])],
   [("X2:B,raw", [⟨"X2:B", "X2:B,raw", 100⟩])],
   [("FLAG:1", ⟨"FLAG:1", [(0, 10)]⟩)]⟩

/-- **C6** — witness: a concrete round trip reproduces the channel and
flag names, and a file without a `segments` group leaves `SEGMENTS`
untouched. -/
theorem archive_round_trip_witness :
    "X2:A,raw" ∈ (read_data_archive emptyGlobals
        (write_archive_groups gW true true true)).DATA.map Prod.fst ∧
    "FLAG:1" ∈ (read_data_archive emptyGlobals
        (write_archive_groups gW true true true)).SEGMENTS.map Prod.fst ∧
    (read_data_archive gW
        (ArchiveFile.mk (some []) (some []) none)).SEGMENTS =
      gW.SEGMENTS := by
  have h := (archive_round_trip gW).1
    (by
      intro k l h
      simp [gW] at h
      obtain ⟨rfl, rfl⟩ := h
      exact ⟨by decide, by decide⟩)
    (by
      intro k l h
      simp [gW] at h
      obtain ⟨rfl, rfl⟩ := h
      exact ⟨by decide, by decide⟩)
    (by
      intro k fl h
      simp [gW] at h
      obtain ⟨rfl, rfl⟩ := h
      decide)
  exact ⟨(h "X2:A,raw").1.mpr (by decide),
    (h "FLAG:1").2.2.mpr (by decide),
    (archive_round_trip gW).2.2.2 gW (ArchiveFile.mk (some []) (some []) none)
      rfl⟩


end Gwsumm
